import Mathlib

/-!
Verification of the coding-agent pipeline (shivammittal274/coding-agent).

The repository contains two generations of the pipeline:
* the phase-based orchestrator (`orchestrate`, with phase functions intake /
  setup / plan / plan-review / execute / code-review / test / test-fix /
  commit), and
* the stage-based controller (`runController`, with stages setup / plan /
  implement / commit and the human-simulator verdict parser).

This file gives a shallow embedding of both.  External effects (the agent
runner, git, the shell) are modelled by explicit environments; every
definition mirrors the control flow of the corresponding TypeScript function.
Costs are modelled as integers (a fixed-point reading of the JS number),
wall-clock durations are abstracted to 0.
-/

namespace CodingAgent

/- ───────────────────────── JS string primitives ───────────────────────── -/

/-- ASCII fragment of the JavaScript whitespace class used by trim and \s. -/
def jsSpace (c : Char) : Bool :=
  c == ' ' || c == '\t' || c == '\r' || c == '\n'

/-- Drop JS whitespace from both ends of a character list. -/
def trimChars (cs : List Char) : List Char :=
  ((cs.dropWhile jsSpace).reverse.dropWhile jsSpace).reverse

/-- Model of JavaScript String.prototype.trim. -/
def jsTrim (s : String) : String :=
  String.mk (trimChars s.data)

/-- Model of JavaScript String.prototype.startsWith. -/
def jsStartsWith (s pre : String) : Bool :=
  pre.data.isPrefixOf s.data

/-- Contiguous-sublist test on character lists. -/
def listInfix (pat : List Char) : List Char → Bool
  | [] => pat.isEmpty
  | c :: cs => pat.isPrefixOf (c :: cs) || listInfix pat cs

/-- Model of JavaScript String.prototype.includes (substring test). -/
def jsIncludes (s pat : String) : Bool :=
  pat.data.isEmpty || listInfix pat.data s.data

/-- Model of JavaScript String.prototype.split with separator newline:
splits at every newline character and keeps empty pieces. -/
def splitLinesAux : List Char → List Char → List String
  | [], acc => [String.mk acc.reverse]
  | c :: cs, acc =>
    if c == '\n' then String.mk acc.reverse :: splitLinesAux cs []
    else splitLinesAux cs (c :: acc)

/-- text.split of a string on newlines. -/
def jsSplitNewline (s : String) : List String :=
  splitLinesAux s.data []

/- ───────────────── Human-simulator verdict parsing (v2) ───────────────── -/

/-- SimulatorVerdict from types.ts: verdict is the string union
'approve' | 'revise'; we keep it as a string to reason about its possible
values. -/
structure SimulatorVerdict where
  verdict : String
  feedback : String
  issues : List String
  costUsd : ℤ
deriving DecidableEq, Repr

/-- Index of the last line whose trimmed text starts with 'VERDICT:'; this is
the backward for-loop of parseVerdict in human-simulator.ts. -/
def lastVerdictIdx : List String → Option Nat
  | [] => none
  | l :: ls =>
    match lastVerdictIdx ls with
    | some i => some (i + 1)
    | none => if jsStartsWith (jsTrim l) "VERDICT:" then some 0 else none

/-- The regular-expression test for numbered issue lines in parseVerdict,
applied to an already-trimmed line: one or more digits, a dot, then a
whitespace character. -/
def isNumberedIssue (l : String) : Bool :=
  let ds := l.data.takeWhile Char.isDigit
  match l.data.drop ds.length with
  | '.' :: c :: _ => !ds.isEmpty && jsSpace c
  | _ => false

/-- The substitution removing the leading number, dot and following
whitespace from a numbered issue line (the replace call in parseVerdict). -/
def stripIssueNumber (l : String) : String :=
  let ds := l.data.takeWhile Char.isDigit
  if ds.isEmpty then l
  else
    match l.data.drop ds.length with
    | '.' :: rest => String.mk (rest.dropWhile jsSpace)
    | _ => l

/-- The issue-collection loop of parseVerdict: each line after the verdict
line is trimmed; 'ISSUES:' header lines are skipped; lines matching the
numbered pattern become issues with the number stripped; all other lines
are ignored. -/
def collectIssues (rest : List String) : List String :=
  rest.filterMap fun l =>
    let t := jsTrim l
    if jsStartsWith t "ISSUES:" then none
    else if isNumberedIssue t then some (stripIssueNumber t) else none

/-- parseVerdict from human-simulator.ts, acting on the line decomposition of
the input text.  No verdict line defaults to approve; a verdict line
containing 'APPROVE' yields approve; every other verdict line yields revise
with the issues collected from the following lines. -/
def parseVerdictLines (lines : List String) (text : String) : SimulatorVerdict :=
  match lastVerdictIdx lines with
  | none => { verdict := "approve", feedback := text, issues := [], costUsd := 0 }
  | some i =>
    let verdictLine := jsTrim (lines.getD i "")
    if jsIncludes verdictLine "APPROVE" then
      { verdict := "approve", feedback := text, issues := [], costUsd := 0 }
    else
      { verdict := "revise", feedback := text,
        issues := collectIssues (lines.drop (i + 1)), costUsd := 0 }

/-- parseVerdict on the raw result text: split on newlines, then parse. -/
def parseVerdict (text : String) : SimulatorVerdict :=
  parseVerdictLines (jsSplitNewline text) text

example : jsTrim "  VERDICT: APPROVE  " = "VERDICT: APPROVE" := by decide

example : jsStartsWith (jsTrim " VERDICT: APPROVE") "VERDICT:" = true := by decide

example : collectIssues ["ISSUES:", "1. alpha", "junk", "2. beta", "3. gamma"]
    = ["alpha", "beta", "gamma"] := by decide

example :
    parseVerdict "thinking\nVERDICT: REVISE\nISSUES:\n1. a\n2. b"
      = { verdict := "revise", feedback := "thinking\nVERDICT: REVISE\nISSUES:\n1. a\n2. b",
          issues := ["a", "b"], costUsd := 0 } := by decide

/- ──────────────── Check runner (utils/test-runner.ts, v1) ─────────────── -/

/-- Failure classification of a check command. -/
inductive FailCat
  | lint
  | typecheck
  | unit
  | build
deriving DecidableEq, Repr

/-- TestResult from types.ts. -/
structure TestResult where
  passed : Bool
  exitCode : Int
  output : String
  failureCategory : Option FailCat := none
deriving DecidableEq, Repr

/-- TestBaseline from test-runner.ts: which checks passed on the clean
worktree and will therefore be enforced. -/
structure TestBaseline where
  runLint : Bool
  runTypecheck : Bool
  runUnit : Bool
deriving DecidableEq, Repr

/-- ProjectInfo from types.ts (phase pipeline).  Fields never consulted by
the orchestrator control flow (project type, build command, package manager,
default branch) are omitted. -/
structure ProjectInfo where
  testCommand : Option String := none
  lintCommand : Option String := none
  typecheckCommand : Option String := none
  hasGitRemote : Bool := false
  canPush : Bool := false
deriving DecidableEq, Repr

/-- JS truthiness of an optional string: undefined and the empty string are
falsy. -/
def optTruthy : Option String → Bool
  | none => false
  | some s => s != ""

/-- Abstract outcome of execSync for check commands: none means the command
succeeded, some gives the exit code and combined output on failure. -/
def CheckExec := String → Option (Int × String)

/-- truncateOutput from test-runner.ts: keep only the last 200 lines. -/
def truncateOutput (output : String) : String :=
  let lines := jsSplitNewline output
  if lines.length ≤ 200 then output
  else String.intercalate "\n" (lines.drop (lines.length - 200))

/-- runCommand from test-runner.ts: run one command and return none on
success, or a failing TestResult carrying the truncated output and the given
category. -/
def runCommand (exec : CheckExec) (command : String) (cat : FailCat) :
    Option TestResult :=
  match exec command with
  | none => none
  | some (status, out) =>
    some { passed := false, exitCode := status, output := truncateOutput out,
           failureCategory := some cat }

/-- runBaselineTests from test-runner.ts: a category is enforced exactly when
its command is configured and passes on the clean worktree. -/
def runBaselineTests (exec : CheckExec) (info : ProjectInfo) : TestBaseline :=
  { runLint := optTruthy info.lintCommand
      && (runCommand exec (info.lintCommand.getD "") FailCat.lint).isNone,
    runTypecheck := optTruthy info.typecheckCommand
      && (runCommand exec (info.typecheckCommand.getD "") FailCat.typecheck).isNone,
    runUnit := optTruthy info.testCommand
      && (runCommand exec (info.testCommand.getD "") FailCat.unit).isNone }

/-- The success value resolved when every enforced check passed. -/
def allChecksPassed : TestResult :=
  { passed := true, exitCode := 0, output := "All enforced checks passed",
    failureCategory := none }

/-- Unit-test block of runTests, instrumented with the list of executed
checks. -/
def runUnitStep (exec : CheckExec) (info : ProjectInfo) (b : TestBaseline)
    (ran : List (FailCat × String)) : TestResult × List (FailCat × String) :=
  if b.runUnit && optTruthy info.testCommand then
    let cmd := info.testCommand.getD ""
    match runCommand exec cmd FailCat.unit with
    | some r => (r, ran ++ [(FailCat.unit, cmd)])
    | none => (allChecksPassed, ran ++ [(FailCat.unit, cmd)])
  else (allChecksPassed, ran)

/-- Typecheck block of runTests. -/
def runTypecheckStep (exec : CheckExec) (info : ProjectInfo) (b : TestBaseline)
    (ran : List (FailCat × String)) : TestResult × List (FailCat × String) :=
  if b.runTypecheck && optTruthy info.typecheckCommand then
    let cmd := info.typecheckCommand.getD ""
    match runCommand exec cmd FailCat.typecheck with
    | some r => (r, ran ++ [(FailCat.typecheck, cmd)])
    | none => runUnitStep exec info b (ran ++ [(FailCat.typecheck, cmd)])
  else runUnitStep exec info b ran

/-- runTests from test-runner.ts: lint, then typecheck, then unit tests, each
only when enforced by the baseline, stopping at the first failure.  The
second component records which checks were executed, in order. -/
def runTestsTrace (exec : CheckExec) (info : ProjectInfo) (b : TestBaseline) :
    TestResult × List (FailCat × String) :=
  if b.runLint && optTruthy info.lintCommand then
    let cmd := info.lintCommand.getD ""
    match runCommand exec cmd FailCat.lint with
    | some r => (r, [(FailCat.lint, cmd)])
    | none => runTypecheckStep exec info b [(FailCat.lint, cmd)]
  else runTypecheckStep exec info b []

/-- runTests as the source returns it (result only). -/
def runTests (exec : CheckExec) (info : ProjectInfo) (b : TestBaseline) :
    TestResult :=
  (runTestsTrace exec info b).1

/-- hasTests from test-runner.ts. -/
def hasTests (info : ProjectInfo) : Bool :=
  optTruthy info.testCommand || optTruthy info.lintCommand
    || optTruthy info.typecheckCommand

/-- hasBaselineChecks from test-runner.ts. -/
def hasBaselineChecks (b : TestBaseline) : Bool :=
  b.runLint || b.runTypecheck || b.runUnit

/- ─────────────────── Phase data model (types.ts, v1) ──────────────────── -/

/-- PhaseName from types.ts. -/
inductive PhaseName
  | intake
  | setup
  | plan
  | planReview
  | execute
  | codeReview
  | test
  | testFix
  | commit
deriving DecidableEq, Repr

/-- PhaseResult from types.ts; wall-clock durations are abstracted to 0. -/
structure PhaseResult where
  phase : PhaseName
  success : Bool
  sessionId : Option String := none
  costUsd : ℤ
  durationMs : ℕ := 0
deriving DecidableEq, Repr

/-- test from phases/test.ts: report success without running anything when no
baseline checks remain, otherwise run the enforced checks.  Instrumented with
the trace of executed check commands. -/
def testPhase (exec : CheckExec) (info : ProjectInfo) (b : TestBaseline) :
    (PhaseResult × TestResult) × List (FailCat × String) :=
  if !hasBaselineChecks b then
    (({ phase := PhaseName.test, success := true, costUsd := 0 },
      { passed := true, exitCode := 0,
        output := "No checks to enforce (all failed on baseline or none defined)" }),
     [])
  else
    let out := runTestsTrace exec info b
    (({ phase := PhaseName.test, success := out.1.passed, costUsd := 0 }, out.1),
     out.2)

/- ──────────── Orchestrator data model (types.ts / config.ts, v1) ──────── -/

/-- PlanReviewVerdict from types.ts.  The verdict field is parsed from the
reviewer's JSON output and may hold any string; orchestrate compares it
against the literals 'approve' and 'reject' and treats everything else as
revise. -/
structure PlanReviewVerdict where
  verdict : String
  feedback : List String := []
  summary : String := ""
deriving DecidableEq, Repr

/-- CodeReviewVerdict from types.ts; the verdict is compared against the
literal 'pass'. -/
structure CodeReviewVerdict where
  verdict : String
  issues : List String := []
  summary : String := ""
deriving DecidableEq, Repr

/-- AgentConfig from types.ts (v1); model names, turn caps and path settings
never influence the orchestrator control flow and are omitted. -/
structure AgentConfig where
  maxPlanReviewCycles : ℕ
  maxCodeReviewCycles : ℕ
  maxTestFixCycles : ℕ
  maxTotalBudgetUsd : ℤ
  skipPlanReview : Bool := false
  skipCodeReview : Bool := false
  skipTests : Bool := false
  noPush : Bool := false
  draftPrOnFailure : Bool := true
deriving DecidableEq, Repr

/-- ControllerResult from types.ts (v1); the status holds one of the source
literals 'success', 'partial' and 'failed'. -/
structure ControllerResult where
  status : String
  prUrl : Option String := none
  branchName : String := ""
  phases : List PhaseResult
  totalCostUsd : ℤ
  totalDurationMs : ℕ := 0
  summary : String
deriving DecidableEq, Repr

/-- Observable side effects of a run: phase banners, git operations, the
worktree removal, and warnings. -/
inductive Ev
  | phaseStart (p : PhaseName)
  | stageAll
  | gitCommit
  | gitPush
  | prCreate
  | removeWorktree
  | warn (msg : String)
deriving DecidableEq, Repr

/-- External outcomes consumed by one invocation of commitPhase: whether the
stage-all and commit git calls throw, whether the push succeeds (push
failures are caught and only logged), and the outcome of PR creation. -/
structure CommitEnv where
  stageAllThrows : Bool := false
  commitThrows : Bool := false
  pushOk : Bool := true
  createPr : Except Unit (Option String) := Except.ok none
deriving Repr

/-- commitPhase from phases/commit.ts: stage everything, commit, then — when
the project can push and pushing is enabled — push and create the PR (both
best effort, their failures are caught), and finally remove the worktree.
Returns the emitted git events together with the phase result and PR url, or
the thrown error message. -/
def commitPhase (cenv : CommitEnv) (info : ProjectInfo) (cfg : AgentConfig)
    (_isDraft : Bool) : List Ev × Except String (PhaseResult × Option String) :=
  if cenv.stageAllThrows then ([Ev.stageAll], Except.error "stage failed")
  else if cenv.commitThrows then
    ([Ev.stageAll, Ev.gitCommit], Except.error "commit failed")
  else
    let shouldPush := info.canPush && !cfg.noPush
    let pushEvs : List Ev := if shouldPush then [Ev.gitPush, Ev.prCreate] else []
    let url : Option String :=
      if shouldPush then
        match cenv.createPr with
        | Except.error _ => none
        | Except.ok none => none
        | Except.ok (some u) => if u == "" then none else some u
      else none
    ([Ev.stageAll, Ev.gitCommit] ++ pushEvs ++ [Ev.removeWorktree],
     Except.ok ({ phase := PhaseName.commit, success := (true : Bool),
                  costUsd := 0 }, url))

/-- Return value of the plan phase (phases/plan.ts). -/
structure PlanOut where
  result : PhaseResult
  planContent : String
  sessionId : String
deriving Repr

/-- Environment of external outcomes for one orchestrate run.  Each field is
the outcome of the corresponding collaborator call; Except.error models a
thrown error.  Per-cycle collaborators are indexed by the cycle counter. -/
structure OrchEnv where
  intake : Except String (PhaseResult × ProjectInfo)
  setup : Except String (PhaseResult × String × String)
  baselineExec : CheckExec
  planFirst : Except String PlanOut
  planRetry : Except String PlanOut
  planRevise : ℕ → Except String PlanOut
  planReview : ℕ → Except String (PhaseResult × PlanReviewVerdict)
  executeAgent : Except String (PhaseResult × String)
  codeReview : ℕ → Except String (PhaseResult × CodeReviewVerdict)
  fixFromReview : ℕ → Except String (PhaseResult × String)
  testExec : ℕ → CheckExec
  testFix : ℕ → Except String PhaseResult
  commitMain : CommitEnv
  commitSalvage : CommitEnv

/-- Local mutable state of orchestrate, threaded explicitly. -/
structure OrchSt where
  phases : List PhaseResult := []
  worktreePath : String := ""
  branchName : String := ""
  planContent : String := ""
  planSessionId : String := ""
  diff : String := ""
  codeReviewSummary : Option String := none
  evs : List Ev := []

/-- totalCost from orchestrate: the sum of costUsd over the recorded phase
entries. -/
def sumCost (phases : List PhaseResult) : ℤ :=
  (phases.map PhaseResult.costUsd).sum

/-- budgetExceeded from orchestrate: the summed cost has reached the cap. -/
def budgetExceeded (cfg : AgentConfig) (st : OrchSt) : Bool :=
  decide (cfg.maxTotalBudgetUsd ≤ sumCost st.phases)

/-- failWithCleanup from orchestrate (config.ts lines 87-116): attempt the
salvage commit when a worktree exists, the failure is marked draftable,
drafting on failure is configured and a diff exists; otherwise just remove
the worktree.  The status is 'partial' exactly when a PR url was obtained. -/
def failWithCleanup (env : OrchEnv) (cfg : AgentConfig) (info : ProjectInfo)
    (st : OrchSt) (summary : String) (isDraft : Bool) :
    ControllerResult × List Ev :=
  if st.worktreePath != "" && isDraft && cfg.draftPrOnFailure && st.diff != "" then
    match commitPhase env.commitSalvage info cfg true with
    | (cevs, Except.ok (res, url)) =>
      let phases := st.phases ++ [res]
      ({ status := if url.isSome then "partial" else "failed",
         prUrl := url, branchName := st.branchName, phases := phases,
         totalCostUsd := sumCost phases, summary := summary },
       st.evs ++ [Ev.phaseStart PhaseName.commit] ++ cevs)
    | (cevs, Except.error e) =>
      ({ status := "failed", prUrl := none, branchName := st.branchName,
         phases := st.phases, totalCostUsd := sumCost st.phases,
         summary := summary },
       st.evs ++ [Ev.phaseStart PhaseName.commit] ++ cevs
         ++ [Ev.warn ("Failed to salvage: " ++ e), Ev.removeWorktree])
  else if st.worktreePath != "" then
    ({ status := "failed", prUrl := none, branchName := st.branchName,
       phases := st.phases, totalCostUsd := sumCost st.phases,
       summary := summary },
     st.evs ++ [Ev.removeWorktree])
  else
    ({ status := "failed", prUrl := none, branchName := st.branchName,
       phases := st.phases, totalCostUsd := sumCost st.phases,
       summary := summary },
     st.evs)

/-- execute from phases/execute.ts: run the coder agent and read the diff of
the worktree; an empty diff is a thrown error. -/
def executePhase (env : OrchEnv) : Except String (PhaseResult × String) :=
  match env.executeAgent with
  | Except.error e => Except.error e
  | Except.ok (res, diff) =>
    if diff == "" then Except.error "Execution produced no code changes"
    else Except.ok (res, diff)

/-- Plan-review loop of orchestrate (config.ts lines 163-212): run the
review, push its entry, check the budget (terminating the run on excess),
then: approve exits the loop, reject terminates the run, any other verdict
is revise and re-plans while cycles remain; errors from the review or the
revision are absorbed with a warning and break the loop. -/
def planReviewLoopF (env : OrchEnv) (cfg : AgentConfig) (info : ProjectInfo) :
    ℕ → OrchSt → ℕ → (ControllerResult × List Ev) ⊕ OrchSt
  | 0, st, _ => Sum.inr st
  | fuel + 1, st, cycle =>
    if cycle < cfg.maxPlanReviewCycles then
      match env.planReview (cycle + 1) with
      | Except.error e =>
        Sum.inr { st with evs := st.evs
          ++ [Ev.warn ("Plan review error: " ++ e ++ ", skipping review")] }
      | Except.ok (pr, v) =>
        let st1 := { st with phases := st.phases ++ [pr] }
        if budgetExceeded cfg st1 then
          Sum.inl (failWithCleanup env cfg info st1
            "Budget exceeded during plan review" false)
        else if v.verdict == "approve" then Sum.inr st1
        else if v.verdict == "reject" then
          Sum.inl (failWithCleanup env cfg info st1
            ("Plan rejected: " ++ v.summary) false)
        else if cycle + 1 < cfg.maxPlanReviewCycles then
          match env.planRevise (cycle + 1) with
          | Except.error e =>
            Sum.inr { st1 with evs := st1.evs
              ++ [Ev.warn ("Plan review error: " ++ e ++ ", skipping review")] }
          | Except.ok po =>
            planReviewLoopF env cfg info fuel
              { st1 with phases := st1.phases ++ [po.result],
                         planContent := po.planContent,
                         planSessionId := po.sessionId } (cycle + 1)
        else
          Sum.inr { st1 with evs := st1.evs
            ++ [Ev.warn "Max plan review cycles reached, proceeding with current plan"] }
    else Sum.inr st

/-- The plan-review loop entered at the given cycle counter (the remaining
cycle budget is the fuel of the structural recursion). -/
def planReviewLoop (env : OrchEnv) (cfg : AgentConfig) (info : ProjectInfo)
    (st : OrchSt) (cycle : ℕ) : (ControllerResult × List Ev) ⊕ OrchSt :=
  planReviewLoopF env cfg info (cfg.maxPlanReviewCycles - cycle) st cycle

/-- Code-review loop of orchestrate (config.ts lines 232-280).  A budget
excess at the top of a cycle logs a warning and breaks out of the loop — it
does not terminate the run; review errors are absorbed. -/
def codeReviewLoopF (env : OrchEnv) (cfg : AgentConfig) :
    ℕ → OrchSt → ℕ → OrchSt
  | 0, st, _ => st
  | fuel + 1, st, cycle =>
    if cycle < cfg.maxCodeReviewCycles then
      if budgetExceeded cfg st then
        { st with evs := st.evs ++ [Ev.warn "Budget exceeded, skipping code review"] }
      else
        match env.codeReview (cycle + 1) with
        | Except.error e =>
          { st with evs := st.evs
            ++ [Ev.warn ("Code review error: " ++ e ++ ", skipping")] }
        | Except.ok (cr, v) =>
          let st1 := { st with phases := st.phases ++ [cr],
                               codeReviewSummary := some v.summary }
          if v.verdict == "pass" then st1
          else if cycle + 1 < cfg.maxCodeReviewCycles then
            match env.fixFromReview (cycle + 1) with
            | Except.error e =>
              { st1 with evs := st1.evs
                ++ [Ev.warn ("Code review error: " ++ e ++ ", skipping")] }
            | Except.ok (fr, rawDiff) =>
              codeReviewLoopF env cfg fuel
                { st1 with phases := st1.phases ++ [fr],
                           diff := if rawDiff == "" then st1.diff else rawDiff } (cycle + 1)
          else
            { st1 with evs := st1.evs
              ++ [Ev.warn "Max code review cycles reached, proceeding with known issues"] }
    else st

/-- The code-review loop entered at the given cycle counter. -/
def codeReviewLoop (env : OrchEnv) (cfg : AgentConfig) (st : OrchSt)
    (cycle : ℕ) : OrchSt :=
  codeReviewLoopF env cfg (cfg.maxCodeReviewCycles - cycle) st cycle

/-- Test-fix loop of orchestrate (config.ts lines 292-314).  A budget excess
at the top of a cycle logs a warning and breaks — it does not terminate the
run; test-fix errors are absorbed.  Returns the final state and the last
test result. -/
def testFixLoopF (env : OrchEnv) (cfg : AgentConfig) (info : ProjectInfo)
    (b : TestBaseline) : ℕ → OrchSt → TestResult → ℕ → OrchSt × TestResult
  | 0, st, lastTR, _ => (st, lastTR)
  | fuel + 1, st, lastTR, cycle =>
    if lastTR.passed then (st, lastTR)
    else if cycle < cfg.maxTestFixCycles then
      if budgetExceeded cfg st then
        ({ st with evs := st.evs
           ++ [Ev.warn "Budget exceeded, stopping test-fix cycles"] }, lastTR)
      else
        match env.testFix (cycle + 1) with
        | Except.error e =>
          ({ st with evs := st.evs ++ [Ev.warn ("Test-fix error: " ++ e)] }, lastTR)
        | Except.ok fr =>
          testFixLoopF env cfg info b fuel
            { st with phases := st.phases ++ [fr]
                ++ [(testPhase (env.testExec (cycle + 1)) info b).1.1] }
            (testPhase (env.testExec (cycle + 1)) info b).1.2 (cycle + 1)
    else (st, lastTR)

/-- The test-fix loop entered at the given cycle counter.  The fuel-0 case of
the structural recursion also returns immediately, matching the while guard:
it is only reached when the cycle counter has hit the cap. -/
def testFixLoop (env : OrchEnv) (cfg : AgentConfig) (info : ProjectInfo)
    (b : TestBaseline) (st : OrchSt) (lastTR : TestResult) (cycle : ℕ) :
    OrchSt × TestResult :=
  testFixLoopF env cfg info b (cfg.maxTestFixCycles - cycle) st lastTR cycle

/-- Commit and done section of orchestrate (config.ts lines 323-355), plus
the top-level catch routing a commit failure into failWithCleanup. -/
def orchCommitDone (env : OrchEnv) (cfg : AgentConfig) (info : ProjectInfo)
    (st : OrchSt) (lastTR : Option TestResult) : ControllerResult × List Ev :=
  match commitPhase env.commitMain info cfg
      (match lastTR with | some t => !t.passed | none => false) with
  | (cevs, Except.error e) =>
    failWithCleanup env cfg info
      { st with evs := st.evs ++ [Ev.phaseStart PhaseName.commit] ++ cevs }
      ("Failed in commit: " ++ e) (st.diff != "")
  | (cevs, Except.ok (cres, url)) =>
    let phases := st.phases ++ [cres]
    let status := match lastTR with
      | some t => if !t.passed then "partial" else "success"
      | none => "success"
    ({ status := status, prUrl := url, branchName := st.branchName,
       phases := phases, totalCostUsd := sumCost phases,
       summary := if status == "success" then "Task completed successfully"
                  else "Task completed with issues" },
     st.evs ++ [Ev.phaseStart PhaseName.commit] ++ cevs)

/-- Tail of orchestrate from the pre-execute budget gate onward (config.ts
lines 214-355): budget gate, execute (fatal on error or empty diff), the
code-review loop, the test phase with its fix loop, then commit. -/
def orchAfterPlanReview (env : OrchEnv) (cfg : AgentConfig) (info : ProjectInfo)
    (b : TestBaseline) (st : OrchSt) : ControllerResult × List Ev :=
  if budgetExceeded cfg st then
    failWithCleanup env cfg info st "Budget exceeded before execution" false
  else
    let st2 := { st with evs := st.evs ++ [Ev.phaseStart PhaseName.execute] }
    match executePhase env with
    | Except.error e =>
      failWithCleanup env cfg info st2 ("Failed in execute: " ++ e) (st2.diff != "")
    | Except.ok (er, d) =>
      let st3 := { st2 with
        phases := st2.phases ++ [er],
        diff := d,
        planSessionId := (match er.sessionId with
          | some s => if s == "" then st2.planSessionId else s
          | none => st2.planSessionId) }
      let st4 := if cfg.skipCodeReview then st3 else codeReviewLoop env cfg st3 0
      if cfg.skipTests then
        orchCommitDone env cfg info st4 none
      else
        let st5 := { st4 with evs := st4.evs ++ [Ev.phaseStart PhaseName.test] }
        let t := testPhase (env.testExec 0) info b
        let st6 := { st5 with phases := st5.phases ++ [t.1.1] }
        let fin := testFixLoop env cfg info b st6 t.1.2 0
        orchCommitDone env cfg info fin.1 (some fin.2)

/-- orchestrate from the orchestrator module: intake, setup, baseline
detection, plan with exactly one retry, the plan-review loop, then the tail;
thrown errors from intake, setup and plan unwind into failWithCleanup. -/
def orchestrate (env : OrchEnv) (cfg : AgentConfig) : ControllerResult × List Ev :=
  let st0 : OrchSt := { phases := [], evs := [Ev.phaseStart PhaseName.intake] }
  match env.intake with
  | Except.error e =>
    failWithCleanup env cfg {} st0 ("Failed in intake: " ++ e) false
  | Except.ok (ir, info) =>
    let st1 : OrchSt := { st0 with
      phases := st0.phases ++ [ir],
      evs := st0.evs ++ [Ev.phaseStart PhaseName.setup] }
    match env.setup with
    | Except.error e =>
      failWithCleanup env cfg info st1 ("Failed in setup: " ++ e) false
    | Except.ok (sr, wt, bn) =>
      let st2 : OrchSt := { st1 with
        phases := st1.phases ++ [sr],
        worktreePath := wt,
        branchName := bn }
      let b := if !cfg.skipTests && hasTests info
               then runBaselineTests env.baselineExec info
               else { runLint := false, runTypecheck := false, runUnit := false }
      let st3 : OrchSt := { st2 with evs := st2.evs ++ [Ev.phaseStart PhaseName.plan] }
      let planRes := match env.planFirst with
        | Except.ok p => Except.ok p
        | Except.error _ => env.planRetry
      match planRes with
      | Except.error e =>
        failWithCleanup env cfg info st3 ("Failed in plan: " ++ e) false
      | Except.ok p =>
        let st4 : OrchSt := { st3 with
          phases := st3.phases ++ [p.result],
          planContent := p.planContent,
          planSessionId := p.sessionId }
        match (if cfg.skipPlanReview then Sum.inr st4
               else planReviewLoop env cfg info st4 0) with
        | Sum.inl res => res
        | Sum.inr st5 => orchAfterPlanReview env cfg info b st5

/- ──────────── Stage-based controller (controller.ts, v2) ──────────────── -/

/-- StageResult from types.ts (v2); the stage field holds one of the source
literals 'setup', 'plan', 'implement', 'commit'. -/
structure StageResult where
  stage : String
  success : Bool
  sessionId : Option String := none
  costUsd : ℤ
  durationMs : ℕ := 0
deriving DecidableEq, Repr

/-- Outcome of one stage call, as seen by runController: the cost the stage's
agent calls added to the global SDK accumulator, together with either the
returned value or the thrown error message.  On a thrown stage the incurred
cost is accumulated globally although no stage entry records it. -/
inductive StageOutcome (α : Type)
  | ok (incurred : ℤ) (val : α)
  | err (incurred : ℤ) (msg : String)
deriving Repr

/-- ControllerResult from types.ts (v2). -/
structure ControllerResult2 where
  status : String
  prUrl : Option String := none
  branchName : Option String := none
  stages : List StageResult
  totalCostUsd : ℤ
  totalDurationMs : ℕ := 0
  summary : String
deriving DecidableEq, Repr

/-- ProjectInfo from types.ts (v2, stage pipeline). -/
structure ProjectInfo2 where
  hasRemote : Bool
  canPush : Bool
deriving DecidableEq, Repr

/-- AgentConfig from types.ts (v2); model and turn caps omitted. -/
structure AgentConfig2 where
  maxPlanReviewCycles : ℕ := 2
  maxCodeReviewCycles : ℕ := 2
  maxTotalBudgetUsd : ℤ
  noPush : Bool := false
  skipReview : Bool := false
  draftPrOnFailure : Bool := true
deriving DecidableEq, Repr

/-- Environment of external outcomes for one runController run (v2). -/
structure CtrlEnv where
  setup : StageOutcome (StageResult × ProjectInfo2 × String × String)
  plan : StageOutcome StageResult
  implementAgent : StageOutcome StageResult
  implementDiff : String
  commit : StageOutcome (StageResult × Option String)
  diffAtFailure : Except String String
  salvageStageAllThrows : Bool := false
  salvageCommitThrows : Bool := false
  salvagePushOk : Bool := true
  salvagePrOk : Bool := true
deriving Repr

/-- runImplement from stages/implement.ts: the coder runs, then the diff from
the baseline commit is checked; an empty or whitespace-only diff is a thrown
error. -/
def runImplement2 (env : CtrlEnv) : StageOutcome StageResult :=
  match env.implementAgent with
  | StageOutcome.err c m => StageOutcome.err c m
  | StageOutcome.ok c sr =>
    if jsTrim env.implementDiff == "" then
      StageOutcome.err c "Coder produced no changes (empty diff)"
    else StageOutcome.ok c sr

/-- checkBudget from controller.ts: throws when the globally accumulated cost
strictly exceeds the budget. -/
def checkBudget2 (cfg : AgentConfig2) (acc : ℤ) : Except String Unit :=
  if acc > cfg.maxTotalBudgetUsd then Except.error "Budget exceeded"
  else Except.ok ()

/-- The catch block of runController (controller.ts lines 89-160): when
drafting on failure is enabled and a worktree and branch exist, read the diff
from the baseline; a non-empty diff is salvaged — stage, commit (failure
swallowed), best-effort push and draft PR, remove the worktree — and the run
ends 'partial' regardless of the push or PR outcome; otherwise remove the
worktree and end 'failed'.  totalCostUsd is the global accumulator value. -/
def ctrlCatch (env : CtrlEnv) (cfg : AgentConfig2) (acc : ℤ)
    (stages : List StageResult) (wt bn msg : String) :
    ControllerResult2 × List Ev :=
  let cleanupFailed : ControllerResult2 × List Ev :=
    ({ status := "failed",
       branchName := if bn == "" then none else some bn,
       stages := stages, totalCostUsd := acc,
       summary := "Failed: " ++ msg },
     if wt != "" then [Ev.removeWorktree] else [])
  if cfg.draftPrOnFailure && wt != "" && bn != "" then
    match env.diffAtFailure with
    | Except.error _ => cleanupFailed
    | Except.ok diff =>
      if jsTrim diff != "" then
        if env.salvageStageAllThrows then cleanupFailed
        else
          let hasSetupStage := stages.any (fun s => s.stage == "setup")
          let pushEvs : List Ev :=
            if hasSetupStage && !cfg.noPush then [Ev.gitPush, Ev.prCreate] else []
          ({ status := "partial", branchName := some bn, stages := stages,
             totalCostUsd := acc,
             summary := "Partial implementation saved as draft. Failed: " ++ msg },
           [Ev.stageAll, Ev.gitCommit] ++ pushEvs ++ [Ev.removeWorktree])
      else cleanupFailed
  else cleanupFailed

/-- runController from controller.ts: setup, plan, implement and commit with
a budget check after each of the first three; any thrown error is routed into
ctrlCatch.  Returns the final result, the final value of the global cost
accumulator, and the event trace. -/
def runController2 (env : CtrlEnv) (cfg : AgentConfig2) :
    ControllerResult2 × ℤ × List Ev :=
  match env.setup with
  | StageOutcome.err c m =>
    let r := ctrlCatch env cfg c [] "" "" m
    (r.1, c, r.2)
  | StageOutcome.ok c (ssr, _pinfo, wt, bn) =>
    let stages0 := [ssr]
    match checkBudget2 cfg c with
    | Except.error m =>
      let r := ctrlCatch env cfg c stages0 wt bn m
      (r.1, c, r.2)
    | Except.ok _ =>
      match env.plan with
      | StageOutcome.err c2 m =>
        let r := ctrlCatch env cfg (c + c2) stages0 wt bn m
        (r.1, c + c2, r.2)
      | StageOutcome.ok c2 psr =>
        let stages1 := stages0 ++ [psr]
        match checkBudget2 cfg (c + c2) with
        | Except.error m =>
          let r := ctrlCatch env cfg (c + c2) stages1 wt bn m
          (r.1, c + c2, r.2)
        | Except.ok _ =>
          match runImplement2 env with
          | StageOutcome.err c3 m =>
            let r := ctrlCatch env cfg (c + c2 + c3) stages1 wt bn m
            (r.1, c + c2 + c3, r.2)
          | StageOutcome.ok c3 isr =>
            let stages2 := stages1 ++ [isr]
            match checkBudget2 cfg (c + c2 + c3) with
            | Except.error m =>
              let r := ctrlCatch env cfg (c + c2 + c3) stages2 wt bn m
              (r.1, c + c2 + c3, r.2)
            | Except.ok _ =>
              match env.commit with
              | StageOutcome.err c4 m =>
                let r := ctrlCatch env cfg (c + c2 + c3 + c4) stages2 wt bn m
                (r.1, c + c2 + c3 + c4, r.2)
              | StageOutcome.ok c4 (csr, url) =>
                let stages3 := stages2 ++ [csr]
                ({ status := "success", prUrl := url, branchName := some bn,
                   stages := stages3, totalCostUsd := c + c2 + c3 + c4,
                   summary := "Task completed successfully" },
                 c + c2 + c3 + c4,
                 [Ev.removeWorktree])

/- ─────────────────────────── Helper lemmas ────────────────────────────── -/

/-- A list without marker lines has no last verdict index. -/
lemma lastVerdictIdx_none_of_marker_free :
    ∀ ls : List String, (∀ l ∈ ls, jsStartsWith (jsTrim l) "VERDICT:" = false) →
      lastVerdictIdx ls = none
  | [], _ => rfl
  | l :: ls, h => by
    have hl : jsStartsWith (jsTrim l) "VERDICT:" = false := h l (by simp)
    have ht := lastVerdictIdx_none_of_marker_free ls (fun x hx => h x (by simp [hx]))
    simp [lastVerdictIdx, ht, hl]

/-- The backward scan finds the position of the last marker line. -/
lemma lastVerdictIdx_append (pre : List String) (v : String) (rest : List String)
    (hv : jsStartsWith (jsTrim v) "VERDICT:" = true)
    (hrest : ∀ l ∈ rest, jsStartsWith (jsTrim l) "VERDICT:" = false) :
    lastVerdictIdx (pre ++ v :: rest) = some pre.length := by
  induction pre with
  | nil =>
    simp [lastVerdictIdx, lastVerdictIdx_none_of_marker_free rest hrest, hv]
  | cons a pre ih =>
    simp [lastVerdictIdx, ih]

/-- Reading the element just past an initial segment. -/
lemma getD_append_length (pre : List String) (v : String) (rest : List String)
    (d : String) : (pre ++ v :: rest).getD pre.length d = v := by
  induction pre with
  | nil => rfl
  | cons a pre ih => simpa [List.getD] using ih

/-- Dropping one past the length of an initial segment. -/
lemma drop_append_length_succ (pre : List String) (v : String)
    (rest : List String) : (pre ++ v :: rest).drop (pre.length + 1) = rest := by
  induction pre with
  | nil => simp
  | cons a pre ih => simp [ih]

/-- Evaluation of parseVerdictLines when the last marker line and the lines
after it are known. -/
lemma parseVerdictLines_split (pre : List String) (v : String)
    (rest : List String) (text : String)
    (hv : jsStartsWith (jsTrim v) "VERDICT:" = true)
    (hrest : ∀ l ∈ rest, jsStartsWith (jsTrim l) "VERDICT:" = false) :
    parseVerdictLines (pre ++ v :: rest) text
      = if jsIncludes (jsTrim v) "APPROVE"
        then { verdict := "approve", feedback := text, issues := [], costUsd := 0 }
        else { verdict := "revise", feedback := text,
               issues := collectIssues rest, costUsd := 0 } := by
  unfold parseVerdictLines
  rw [lastVerdictIdx_append pre v rest hv hrest]
  simp only [getD_append_length, drop_append_length_succ]

/- ────────────────────────────── Claim C4 ──────────────────────────────── -/

/-- C4: the verdict is decided by the last line starting with 'VERDICT:' —
earlier occurrences of the marker in reasoning text are ignored; text ending
in 'VERDICT: APPROVE' parses to approve with an empty issue list; text with
no marker line defaults to approve with an empty issue list; text ending in
'VERDICT: REVISE' followed by 'ISSUES:' and three numbered lines parses to
revise with exactly those three issues in input order, lines not matching
the numbered pattern being ignored. -/
theorem C4_verdict_parsing (pre noMarker : List String) (text : String)
    (hnm : ∀ l ∈ noMarker, jsStartsWith (jsTrim l) "VERDICT:" = false) :
    parseVerdictLines (pre ++ ["VERDICT: APPROVE"]) text
      = { verdict := "approve", feedback := text, issues := [], costUsd := 0 }
    ∧ parseVerdictLines noMarker text
      = { verdict := "approve", feedback := text, issues := [], costUsd := 0 }
    ∧ parseVerdictLines
        (pre ++ ["VERDICT: REVISE", "ISSUES:", "1. alpha", "reasoning, ignored",
                 "2. beta", "3. gamma"]) text
      = { verdict := "revise", feedback := text,
          issues := ["alpha", "beta", "gamma"], costUsd := 0 }
    ∧ parseVerdict text = parseVerdictLines (jsSplitNewline text) text := by
  refine ⟨?_, ?_, ?_, rfl⟩
  · rw [show (["VERDICT: APPROVE"] : List String) = "VERDICT: APPROVE" :: [] from rfl,
      parseVerdictLines_split pre "VERDICT: APPROVE" [] text (by decide) (by simp)]
    simp [show jsIncludes (jsTrim "VERDICT: APPROVE") "APPROVE" = true from by decide]
  · simp [parseVerdictLines, lastVerdictIdx_none_of_marker_free noMarker hnm]
  · rw [show (["VERDICT: REVISE", "ISSUES:", "1. alpha", "reasoning, ignored",
        "2. beta", "3. gamma"] : List String)
      = "VERDICT: REVISE"
        :: ["ISSUES:", "1. alpha", "reasoning, ignored", "2. beta", "3. gamma"] from rfl,
      parseVerdictLines_split pre "VERDICT: REVISE"
        ["ISSUES:", "1. alpha", "reasoning, ignored", "2. beta", "3. gamma"] text
        (by decide) (by decide)]
    simp [show jsIncludes (jsTrim "VERDICT: REVISE") "APPROVE" = false from by decide,
      show collectIssues
          ["ISSUES:", "1. alpha", "reasoning, ignored", "2. beta", "3. gamma"]
        = ["alpha", "beta", "gamma"] from by decide]

/-- Witness for C4 at a concrete input: the reasoning lines mention the
marker word, yet the final APPROVE line decides. -/
theorem C4_verdict_parsing_witness :
    parseVerdictLines (["the plan is weak", "VERDICT: REVISE was my first thought"]
        ++ ["VERDICT: APPROVE"]) "t"
      = { verdict := "approve", feedback := "t", issues := [], costUsd := 0 } :=
  (C4_verdict_parsing ["the plan is weak", "VERDICT: REVISE was my first thought"]
    ["nothing here"] "t" (by decide)).1

/- ────────────────────────────── Claim C10 ─────────────────────────────── -/

/-- C10: the free-text verdict parser only ever returns 'approve' or
'revise', never 'reject'; the last marker line containing 'APPROVE' anywhere
yields approve with an empty issue list, and every other marker line —
including a literal 'VERDICT: REJECT' — is mapped to revise, so a textual
reject marker cannot trigger reject behaviour. -/
theorem C10_no_reject_verdict (text : String) (pre : List String) (v : String) :
    ((parseVerdict text).verdict = "approve" ∨ (parseVerdict text).verdict = "revise")
    ∧ parseVerdictLines (pre ++ ["VERDICT: REJECT"]) text
      = { verdict := "revise", feedback := text, issues := [], costUsd := 0 }
    ∧ (jsStartsWith (jsTrim v) "VERDICT:" = true →
        jsIncludes (jsTrim v) "APPROVE" = true →
        parseVerdictLines (pre ++ [v]) text
          = { verdict := "approve", feedback := text, issues := [], costUsd := 0 })
    ∧ (jsStartsWith (jsTrim v) "VERDICT:" = true →
        jsIncludes (jsTrim v) "APPROVE" = false →
        (parseVerdictLines (pre ++ [v]) text).verdict = "revise") := by
  refine ⟨?_, ?_, ?_, ?_⟩
  · unfold parseVerdict parseVerdictLines
    rcases h : lastVerdictIdx (jsSplitNewline text) with _ | i
    · simp
    · simp only
      split
      · simp
      · simp
  · rw [show (["VERDICT: REJECT"] : List String) = "VERDICT: REJECT" :: [] from rfl,
      parseVerdictLines_split pre "VERDICT: REJECT" [] text (by decide) (by simp)]
    simp [show jsIncludes (jsTrim "VERDICT: REJECT") "APPROVE" = false from by decide,
      show collectIssues [] = [] from rfl]
  · intro hv happ
    rw [show ([v] : List String) = v :: [] from rfl,
      parseVerdictLines_split pre v [] text hv (by simp), happ]
    simp
  · intro hv happ
    rw [show ([v] : List String) = v :: [] from rfl,
      parseVerdictLines_split pre v [] text hv (by simp), happ]
    simp

/-- Witness for C10 at a concrete input: a literal REJECT marker parses as
revise, and the APPROVE branch is exercised. -/
theorem C10_no_reject_verdict_witness :
    parseVerdictLines (["analysis"] ++ ["VERDICT: REJECT"]) "x"
      = { verdict := "revise", feedback := "x", issues := [], costUsd := 0 }
    ∧ parseVerdictLines (["analysis"] ++ ["VERDICT: APPROVE"]) "x"
      = { verdict := "approve", feedback := "x", issues := [], costUsd := 0 } :=
  ⟨(C10_no_reject_verdict "x" ["analysis"] "VERDICT: REJECT").2.1,
   (C10_no_reject_verdict "x" ["analysis"] "VERDICT: APPROVE").2.2.1
     (by decide) (by decide)⟩

/- ────────────────────────────── Claim C8 ──────────────────────────────── -/

/-- C8: a run whose computed TestBaseline is all-false makes the test phase
return a TestResult with passed = true and an explanatory message, without
executing any check command. -/
theorem C8_all_false_baseline_noop (exec : CheckExec) (info : ProjectInfo) :
    (testPhase exec info ⟨false, false, false⟩).1.2.passed = true
    ∧ (testPhase exec info ⟨false, false, false⟩).1.2.output
        = "No checks to enforce (all failed on baseline or none defined)"
    ∧ (testPhase exec info ⟨false, false, false⟩).1.1.success = true
    ∧ (testPhase exec info ⟨false, false, false⟩).2 = [] := by
  refine ⟨?_, ?_, ?_, ?_⟩ <;> simp [testPhase, hasBaselineChecks]

/- ────────────────────────────── Claim C5 ──────────────────────────────── -/

/-- Whether the baseline admits a category for enforcement. -/
def baselineAllows (b : TestBaseline) : FailCat → Bool
  | FailCat.lint => b.runLint
  | FailCat.typecheck => b.runTypecheck
  | FailCat.unit => b.runUnit
  | FailCat.build => false

/-- Position of a category in the fixed enforcement order. -/
def catPriority : FailCat → ℕ
  | FailCat.lint => 0
  | FailCat.typecheck => 1
  | FailCat.unit => 2
  | FailCat.build => 3

/-- Generic first-failure runner over an explicit checklist; runTestsTrace is
shown equal to it on the enforced checklist. -/
def runChecklist (exec : CheckExec) :
    List (FailCat × String) → TestResult × List (FailCat × String)
  | [] => (allChecksPassed, [])
  | (cat, cmd) :: rest =>
    match runCommand exec cmd cat with
    | some r => (r, [(cat, cmd)])
    | none =>
      let out := runChecklist exec rest
      (out.1, (cat, cmd) :: out.2)

/-- The checks enforced by runTests, in priority order. -/
def enforcedChecks (info : ProjectInfo) (b : TestBaseline) :
    List (FailCat × String) :=
  (if b.runLint && optTruthy info.lintCommand
   then [(FailCat.lint, info.lintCommand.getD "")] else [])
  ++ (if b.runTypecheck && optTruthy info.typecheckCommand
      then [(FailCat.typecheck, info.typecheckCommand.getD "")] else [])
  ++ (if b.runUnit && optTruthy info.testCommand
      then [(FailCat.unit, info.testCommand.getD "")] else [])

/-- The unit block equals the checklist runner on its own checklist. -/
lemma runUnitStep_eq_checklist (exec : CheckExec) (info : ProjectInfo)
    (b : TestBaseline) (ran : List (FailCat × String)) :
    runUnitStep exec info b ran
      = ((runChecklist exec (if b.runUnit && optTruthy info.testCommand
            then [(FailCat.unit, info.testCommand.getD "")] else [])).1,
         ran ++ (runChecklist exec (if b.runUnit && optTruthy info.testCommand
            then [(FailCat.unit, info.testCommand.getD "")] else [])).2) := by
  unfold runUnitStep
  by_cases hg : b.runUnit && optTruthy info.testCommand
  · simp only [hg, if_true]
    cases hres : runCommand exec (info.testCommand.getD "") FailCat.unit with
    | some r => simp [runChecklist, hres]
    | none => simp [runChecklist, hres]
  · simp [hg, runChecklist]

/-- The typecheck block equals the checklist runner on its checklist. -/
lemma runTypecheckStep_eq_checklist (exec : CheckExec) (info : ProjectInfo)
    (b : TestBaseline) (ran : List (FailCat × String)) :
    runTypecheckStep exec info b ran
      = ((runChecklist exec
            ((if b.runTypecheck && optTruthy info.typecheckCommand
              then [(FailCat.typecheck, info.typecheckCommand.getD "")] else [])
             ++ (if b.runUnit && optTruthy info.testCommand
                 then [(FailCat.unit, info.testCommand.getD "")] else []))).1,
         ran ++ (runChecklist exec
            ((if b.runTypecheck && optTruthy info.typecheckCommand
              then [(FailCat.typecheck, info.typecheckCommand.getD "")] else [])
             ++ (if b.runUnit && optTruthy info.testCommand
                 then [(FailCat.unit, info.testCommand.getD "")] else []))).2) := by
  unfold runTypecheckStep
  by_cases hg : b.runTypecheck && optTruthy info.typecheckCommand
  · simp only [hg, if_true, List.cons_append, List.nil_append]
    cases hres : runCommand exec (info.typecheckCommand.getD "") FailCat.typecheck with
    | some r => simp [runChecklist, hres]
    | none => simp [runChecklist, hres, runUnitStep_eq_checklist]
  · simp [hg, runUnitStep_eq_checklist]

/-- runTestsTrace equals the checklist runner on the enforced checklist. -/
lemma runTestsTrace_eq_checklist (exec : CheckExec) (info : ProjectInfo)
    (b : TestBaseline) :
    runTestsTrace exec info b = runChecklist exec (enforcedChecks info b) := by
  unfold runTestsTrace enforcedChecks
  by_cases hg : b.runLint && optTruthy info.lintCommand
  · simp only [hg, if_true, List.cons_append, List.nil_append]
    cases hres : runCommand exec (info.lintCommand.getD "") FailCat.lint with
    | some r => simp [runChecklist, hres]
    | none => simp [runChecklist, hres, runTypecheckStep_eq_checklist]
  · simp [hg, runTypecheckStep_eq_checklist]

/-- A failing outcome of runCommand is a failing result classified with the
category that was run. -/
lemma runCommand_some (exec : CheckExec) (cmd : String) (cat : FailCat)
    (r : TestResult) (h : runCommand exec cmd cat = some r) :
    r.passed = false ∧ r.failureCategory = some cat := by
  unfold runCommand at h
  cases hx : exec cmd with
  | none => rw [hx] at h; cases h
  | some p => rw [hx] at h; cases h; exact ⟨rfl, rfl⟩

/-- Structural facts about the checklist runner: the trace is an initial segment of the
checklist, all but the last executed check succeeded, a failing result is the
outcome of the last executed check, and a passing result means every executed
check succeeded and the result is the canonical success value. -/
lemma runChecklist_spec (exec : CheckExec) :
    ∀ l : List (FailCat × String),
      (∃ t, (runChecklist exec l).2 ++ t = l)
      ∧ (∀ p ∈ (runChecklist exec l).2.dropLast, runCommand exec p.2 p.1 = none)
      ∧ ((runChecklist exec l).1.passed = false →
          ∃ p, (runChecklist exec l).2.getLast? = some p
            ∧ runCommand exec p.2 p.1 = some (runChecklist exec l).1)
      ∧ ((runChecklist exec l).1.passed = true →
          (∀ p ∈ (runChecklist exec l).2, runCommand exec p.2 p.1 = none)
            ∧ (runChecklist exec l).1 = allChecksPassed)
  | [] => by
    refine ⟨⟨[], rfl⟩, ?_, ?_, ?_⟩ <;> simp [runChecklist, allChecksPassed]
  | (cat, cmd) :: rest => by
    have ih := runChecklist_spec exec rest
    cases hres : runCommand exec cmd cat with
    | some r =>
      have hr := runCommand_some exec cmd cat r hres
      refine ⟨⟨rest, by simp [runChecklist, hres]⟩, ?_, ?_, ?_⟩
      · simp [runChecklist, hres]
      · intro _
        exact ⟨(cat, cmd), by simp [runChecklist, hres], by simp [runChecklist, hres, hres]⟩
      · intro hp
        rw [show (runChecklist exec ((cat, cmd) :: rest)).1 = r from by
          simp [runChecklist, hres]] at hp
        rw [hr.1] at hp
        cases hp
    | none =>
      obtain ⟨⟨t, ht⟩, hmid, hfail, hpass⟩ := ih
      have heq : runChecklist exec ((cat, cmd) :: rest)
          = ((runChecklist exec rest).1, (cat, cmd) :: (runChecklist exec rest).2) := by
        simp [runChecklist, hres]
      refine ⟨⟨t, by rw [heq]; simp [ht]⟩, ?_, ?_, ?_⟩
      · rw [heq]
        cases htr : (runChecklist exec rest).2 with
        | nil => simp
        | cons y ys =>
          intro p hp
          rw [List.dropLast_cons₂] at hp
          rcases List.mem_cons.mp hp with h1 | h1
          · subst h1; exact hres
          · exact hmid p (by rw [htr]; exact h1)
      · rw [heq]
        intro hp
        obtain ⟨p, hp1, hp2⟩ := hfail hp
        refine ⟨p, ?_, hp2⟩
        cases htr : (runChecklist exec rest).2 with
        | nil => rw [htr] at hp1; cases hp1
        | cons y ys => rw [htr] at hp1; simp [hp1]
      · rw [heq]
        intro hp
        obtain ⟨hall, hres2⟩ := hpass hp
        refine ⟨?_, hres2⟩
        intro p hp2
        rcases List.mem_cons.mp hp2 with h1 | h1
        · subst h1; exact hres
        · exact hall p h1

/-- Every enforced check is allowed by the baseline. -/
lemma enforcedChecks_allowed (info : ProjectInfo) (b : TestBaseline) :
    ∀ p ∈ enforcedChecks info b, baselineAllows b p.1 = true := by
  intro p hp
  unfold enforcedChecks at hp
  rcases List.mem_append.mp hp with h | h
  · rcases List.mem_append.mp h with h1 | h1
    · by_cases hg : b.runLint && optTruthy info.lintCommand
      · rw [if_pos hg] at h1
        simp at h1
        subst h1
        simpa [baselineAllows] using (Bool.and_elim_left hg)
      · rw [if_neg hg] at h1; cases h1
    · by_cases hg : b.runTypecheck && optTruthy info.typecheckCommand
      · rw [if_pos hg] at h1
        simp at h1
        subst h1
        simpa [baselineAllows] using (Bool.and_elim_left hg)
      · rw [if_neg hg] at h1; cases h1
  · by_cases hg : b.runUnit && optTruthy info.testCommand
    · rw [if_pos hg] at h
      simp at h
      subst h
      simpa [baselineAllows] using (Bool.and_elim_left hg)
    · rw [if_neg hg] at h; cases h

/-- The enforced checklist is strictly increasing in priority. -/
lemma enforcedChecks_chain (info : ProjectInfo) (b : TestBaseline) :
    List.Chain' (fun p q => catPriority p.1 < catPriority q.1)
      (enforcedChecks info b) := by
  unfold enforcedChecks
  by_cases h1 : b.runLint && optTruthy info.lintCommand <;>
    by_cases h2 : b.runTypecheck && optTruthy info.typecheckCommand <;>
      by_cases h3 : b.runUnit && optTruthy info.testCommand <;>
        simp [h1, h2, h3, catPriority]

/-- C5: enforcement executes only the categories that passed at baseline, in
the fixed priority order lint then typecheck then unit tests, stops at the
first failing enforced category and returns that category's outcome and
classification; a category that failed at baseline is never executed, so a
regression in it cannot fail the run. -/
theorem C5_baseline_gated_enforcement (exec : CheckExec) (info : ProjectInfo)
    (b : TestBaseline) :
    (∀ p ∈ (runTestsTrace exec info b).2, baselineAllows b p.1 = true)
    ∧ List.Chain' (fun p q => catPriority p.1 < catPriority q.1)
        (runTestsTrace exec info b).2
    ∧ (∀ p ∈ (runTestsTrace exec info b).2.dropLast,
        runCommand exec p.2 p.1 = none)
    ∧ ((runTestsTrace exec info b).1.passed = false →
        ∃ p, (runTestsTrace exec info b).2.getLast? = some p
          ∧ runCommand exec p.2 p.1 = some (runTestsTrace exec info b).1
          ∧ (runTestsTrace exec info b).1.failureCategory = some p.1)
    ∧ ((runTestsTrace exec info b).1.passed = true →
        ∀ p ∈ (runTestsTrace exec info b).2, runCommand exec p.2 p.1 = none)
    ∧ (b.runLint = false →
        (∀ p ∈ (runTestsTrace exec info b).2, p.1 ≠ FailCat.lint)
        ∧ (runTestsTrace exec info b).1.failureCategory ≠ some FailCat.lint) := by
  rw [runTestsTrace_eq_checklist]
  obtain ⟨⟨t, ht⟩, hmid, hfail, hpass⟩ := runChecklist_spec exec (enforcedChecks info b)
  have hsub : ∀ p ∈ (runChecklist exec (enforcedChecks info b)).2,
      p ∈ enforcedChecks info b := by
    intro p hp
    rw [← ht]
    exact List.mem_append.mpr (Or.inl hp)
  refine ⟨?_, ?_, hmid, ?_, fun h p hp => (hpass h).1 p hp, ?_⟩
  · intro p hp
    exact enforcedChecks_allowed info b p (hsub p hp)
  · have hch := enforcedChecks_chain info b
    rw [← ht] at hch
    exact hch.left_of_append
  · intro hp
    obtain ⟨p, hp1, hp2⟩ := hfail hp
    exact ⟨p, hp1, hp2, (runCommand_some exec p.2 p.1 _ hp2).2⟩
  · intro hlint
    have hnotlint : ∀ p ∈ (runChecklist exec (enforcedChecks info b)).2,
        p.1 ≠ FailCat.lint := by
      intro p hp hcontra
      have := enforcedChecks_allowed info b p (hsub p hp)
      rw [hcontra] at this
      simp [baselineAllows, hlint] at this
    refine ⟨hnotlint, ?_⟩
    cases hp : (runChecklist exec (enforcedChecks info b)).1.passed with
    | true =>
      rw [(hpass hp).2]
      simp [allChecksPassed]
    | false =>
      obtain ⟨p, hp1, hp2⟩ := hfail hp
      rw [(runCommand_some exec p.2 p.1 _ hp2).2]
      have hpmem : p ∈ (runChecklist exec (enforcedChecks info b)).2 := by
        obtain ⟨hne, hEq⟩ := List.mem_getLast?_eq_getLast
          (show p ∈ ((runChecklist exec (enforcedChecks info b)).2).getLast? from
            Option.mem_def.mpr hp1)
        rw [hEq]
        exact List.getLast_mem hne
      intro hcontra
      exact hnotlint p hpmem (by injection hcontra)

/- ─────────────── Structural lemmas about the orchestrator ─────────────── -/

/-- Cost of a list of stage entries (v2). -/
def sumStageCost (l : List StageResult) : ℤ :=
  (l.map StageResult.costUsd).sum

/-- A successful commitPhase always removed the worktree. -/
lemma commitPhase_ok_removes (cenv : CommitEnv) (info : ProjectInfo)
    (cfg : AgentConfig) (d : Bool) (x : PhaseResult × Option String)
    (h : (commitPhase cenv info cfg d).2 = Except.ok x) :
    Ev.removeWorktree ∈ (commitPhase cenv info cfg d).1 := by
  unfold commitPhase at h ⊢
  by_cases h1 : cenv.stageAllThrows
  · simp [h1] at h
  · by_cases h2 : cenv.commitThrows
    · simp [h1, h2] at h
    · simp [h1, h2]

/-- commitPhase always begins by staging (the salvage attempt is visible). -/
lemma commitPhase_stageAll (cenv : CommitEnv) (info : ProjectInfo)
    (cfg : AgentConfig) (d : Bool) :
    Ev.stageAll ∈ (commitPhase cenv info cfg d).1 := by
  unfold commitPhase
  by_cases h1 : cenv.stageAllThrows
  · simp [h1]
  · by_cases h2 : cenv.commitThrows
    · simp [h1, h2]
    · simp [h1, h2]

/-- failWithCleanup reports the cost ledger sum of its recorded phases. -/
lemma fwc_total (env : OrchEnv) (cfg : AgentConfig) (info : ProjectInfo)
    (st : OrchSt) (summary : String) (isDraft : Bool) :
    (failWithCleanup env cfg info st summary isDraft).1.totalCostUsd
      = sumCost (failWithCleanup env cfg info st summary isDraft).1.phases := by
  unfold failWithCleanup
  split
  · split
    · rfl
    · rfl
  · split
    · rfl
    · rfl

/-- failWithCleanup propagates the summary it was invoked with. -/
lemma fwc_summary (env : OrchEnv) (cfg : AgentConfig) (info : ProjectInfo)
    (st : OrchSt) (summary : String) (isDraft : Bool) :
    (failWithCleanup env cfg info st summary isDraft).1.summary = summary := by
  unfold failWithCleanup
  split
  · split
    · rfl
    · rfl
  · split
    · rfl
    · rfl

/-- With a worktree present, failWithCleanup removes it on every branch. -/
lemma fwc_removes (env : OrchEnv) (cfg : AgentConfig) (info : ProjectInfo)
    (st : OrchSt) (summary : String) (isDraft : Bool)
    (hwt : st.worktreePath ≠ "") :
    Ev.removeWorktree ∈ (failWithCleanup env cfg info st summary isDraft).2 := by
  unfold failWithCleanup
  split
  · rename_i hcond
    cases hcp : commitPhase env.commitSalvage info cfg true with
    | mk cevs eres =>
      cases eres with
      | ok x =>
        simp only [hcp]
        have := commitPhase_ok_removes env.commitSalvage info cfg true x
          (by rw [hcp])
        rw [hcp] at this
        simp [List.mem_append, this]
      | error e =>
        simp [hcp]
  · split
    · simp
    · rename_i hcond habs
      exact absurd (by simpa using hwt) habs

/-- A run-terminating outcome of the plan-review loop body is a
failWithCleanup over a state with the same worktree, and its summary is
either the budget message or a plan-rejection message. -/
lemma planReviewLoopF_inl (env : OrchEnv) (cfg : AgentConfig) (info : ProjectInfo) :
    ∀ fuel cycle st r, planReviewLoopF env cfg info fuel st cycle = Sum.inl r →
      ∃ st2 s, r = failWithCleanup env cfg info st2 s false
        ∧ st2.worktreePath = st.worktreePath
        ∧ (s = "Budget exceeded during plan review"
           ∨ ∃ c pr v, env.planReview c = Except.ok (pr, v) ∧ v.verdict = "reject"
               ∧ s = "Plan rejected: " ++ v.summary) := by
  intro fuel
  induction fuel with
  | zero =>
    intro cycle st r h
    simp [planReviewLoopF] at h
  | succ n ih =>
    intro cycle st r h
    simp only [planReviewLoopF] at h
    by_cases hc : cycle < cfg.maxPlanReviewCycles
    · rw [if_pos hc] at h
      cases hrev : env.planReview (cycle + 1) with
      | error e => rw [hrev] at h; cases h
      | ok pv =>
        rw [hrev] at h
        cases pv with
        | mk pr v =>
          simp only at h
          by_cases hb : budgetExceeded cfg { st with phases := st.phases ++ [pr] }
          · rw [if_pos hb] at h
            cases h
            exact ⟨_, _, rfl, rfl, Or.inl rfl⟩
          · rw [if_neg hb] at h
            by_cases ha : v.verdict == "approve"
            · rw [if_pos ha] at h; cases h
            · rw [if_neg ha] at h
              by_cases hr : v.verdict == "reject"
              · rw [if_pos hr] at h
                cases h
                exact ⟨_, _, rfl, rfl,
                  Or.inr ⟨cycle + 1, pr, v, hrev, by simpa using hr, rfl⟩⟩
              · rw [if_neg hr] at h
                by_cases hcyc : cycle + 1 < cfg.maxPlanReviewCycles
                · rw [if_pos hcyc] at h
                  cases hpl : env.planRevise (cycle + 1) with
                  | error e => rw [hpl] at h; cases h
                  | ok po =>
                    rw [hpl] at h
                    obtain ⟨st2, s, h1, h2, h3⟩ := ih (cycle + 1)
                      { st with phases := st.phases ++ [pr] ++ [po.result],
                                planContent := po.planContent,
                                planSessionId := po.sessionId } r h
                    exact ⟨st2, s, h1, h2, h3⟩
                · rw [if_neg hcyc] at h; cases h
    · rw [if_neg hc] at h
      cases h

/-- Wrapper form of planReviewLoopF_inl for the loop at a cycle counter. -/
lemma planReviewLoop_inl (env : OrchEnv) (cfg : AgentConfig) (info : ProjectInfo)
    (st : OrchSt) (cycle : ℕ) (r : ControllerResult × List Ev)
    (h : planReviewLoop env cfg info st cycle = Sum.inl r) :
    ∃ st2 s, r = failWithCleanup env cfg info st2 s false
      ∧ st2.worktreePath = st.worktreePath
      ∧ (s = "Budget exceeded during plan review"
         ∨ ∃ c pr v, env.planReview c = Except.ok (pr, v) ∧ v.verdict = "reject"
             ∧ s = "Plan rejected: " ++ v.summary) :=
  planReviewLoopF_inl env cfg info (cfg.maxPlanReviewCycles - cycle) cycle st r h

/-- A loop-exiting outcome of the plan-review loop body preserves the
worktree, branch and diff of the entry state. -/
lemma planReviewLoopF_inr (env : OrchEnv) (cfg : AgentConfig) (info : ProjectInfo) :
    ∀ fuel cycle st st5, planReviewLoopF env cfg info fuel st cycle = Sum.inr st5 →
      st5.worktreePath = st.worktreePath ∧ st5.branchName = st.branchName
        ∧ st5.diff = st.diff := by
  intro fuel
  induction fuel with
  | zero =>
    intro cycle st st5 h
    simp only [planReviewLoopF] at h
    cases h
    exact ⟨rfl, rfl, rfl⟩
  | succ n ih =>
    intro cycle st st5 h
    simp only [planReviewLoopF] at h
    by_cases hc : cycle < cfg.maxPlanReviewCycles
    · rw [if_pos hc] at h
      cases hrev : env.planReview (cycle + 1) with
      | error e =>
        rw [hrev] at h
        cases h
        exact ⟨rfl, rfl, rfl⟩
      | ok pv =>
        rw [hrev] at h
        cases pv with
        | mk pr v =>
          simp only at h
          by_cases hb : budgetExceeded cfg { st with phases := st.phases ++ [pr] }
          · rw [if_pos hb] at h; cases h
          · rw [if_neg hb] at h
            by_cases ha : v.verdict == "approve"
            · rw [if_pos ha] at h
              cases h
              exact ⟨rfl, rfl, rfl⟩
            · rw [if_neg ha] at h
              by_cases hr : v.verdict == "reject"
              · rw [if_pos hr] at h; cases h
              · rw [if_neg hr] at h
                by_cases hcyc : cycle + 1 < cfg.maxPlanReviewCycles
                · rw [if_pos hcyc] at h
                  cases hpl : env.planRevise (cycle + 1) with
                  | error e =>
                    rw [hpl] at h
                    cases h
                    exact ⟨rfl, rfl, rfl⟩
                  | ok po =>
                    rw [hpl] at h
                    exact ih (cycle + 1)
                      { st with phases := st.phases ++ [pr] ++ [po.result],
                                planContent := po.planContent,
                                planSessionId := po.sessionId }
                      st5 h
                · rw [if_neg hcyc] at h
                  cases h
                  exact ⟨rfl, rfl, rfl⟩
    · rw [if_neg hc] at h
      cases h
      exact ⟨rfl, rfl, rfl⟩

/-- Wrapper form of planReviewLoopF_inr for the loop at a cycle counter. -/
lemma planReviewLoop_inr (env : OrchEnv) (cfg : AgentConfig) (info : ProjectInfo)
    (st : OrchSt) (cycle : ℕ) (st5 : OrchSt)
    (h : planReviewLoop env cfg info st cycle = Sum.inr st5) :
    st5.worktreePath = st.worktreePath ∧ st5.branchName = st.branchName
      ∧ st5.diff = st.diff :=
  planReviewLoopF_inr env cfg info (cfg.maxPlanReviewCycles - cycle) cycle st st5 h

/-- The code-review loop body preserves the worktree and branch. -/
lemma codeReviewLoopF_preserves (env : OrchEnv) (cfg : AgentConfig) :
    ∀ fuel cycle st,
      (codeReviewLoopF env cfg fuel st cycle).worktreePath = st.worktreePath
        ∧ (codeReviewLoopF env cfg fuel st cycle).branchName = st.branchName := by
  intro fuel
  induction fuel with
  | zero =>
    intro cycle st
    exact ⟨rfl, rfl⟩
  | succ n ih =>
    intro cycle st
    simp only [codeReviewLoopF]
    by_cases hc : cycle < cfg.maxCodeReviewCycles
    · rw [if_pos hc]
      by_cases hb : budgetExceeded cfg st
      · rw [if_pos hb]
        exact ⟨rfl, rfl⟩
      · rw [if_neg hb]
        cases hcr : env.codeReview (cycle + 1) with
        | error e => exact ⟨rfl, rfl⟩
        | ok cv =>
          cases cv with
          | mk cr v =>
            simp only
            by_cases hp : v.verdict == "pass"
            · rw [if_pos hp]
              exact ⟨rfl, rfl⟩
            · rw [if_neg hp]
              by_cases hcyc : cycle + 1 < cfg.maxCodeReviewCycles
              · rw [if_pos hcyc]
                cases hfx : env.fixFromReview (cycle + 1) with
                | error e => exact ⟨rfl, rfl⟩
                | ok fr =>
                  cases fr with
                  | mk f rawDiff =>
                    simp only
                    exact ih (cycle + 1) _
              · rw [if_neg hcyc]
                exact ⟨rfl, rfl⟩
    · rw [if_neg hc]
      exact ⟨rfl, rfl⟩

/-- The code-review loop preserves the worktree and branch. -/
lemma codeReviewLoop_preserves (env : OrchEnv) (cfg : AgentConfig)
    (st : OrchSt) (cycle : ℕ) :
    (codeReviewLoop env cfg st cycle).worktreePath = st.worktreePath
      ∧ (codeReviewLoop env cfg st cycle).branchName = st.branchName :=
  codeReviewLoopF_preserves env cfg (cfg.maxCodeReviewCycles - cycle) cycle st

/-- The test-fix loop body preserves the worktree and branch. -/
lemma testFixLoopF_preserves (env : OrchEnv) (cfg : AgentConfig)
    (info : ProjectInfo) (b : TestBaseline) :
    ∀ fuel cycle st lastTR,
      (testFixLoopF env cfg info b fuel st lastTR cycle).1.worktreePath
          = st.worktreePath
        ∧ (testFixLoopF env cfg info b fuel st lastTR cycle).1.branchName
          = st.branchName := by
  intro fuel
  induction fuel with
  | zero =>
    intro cycle st lastTR
    exact ⟨rfl, rfl⟩
  | succ n ih =>
    intro cycle st lastTR
    simp only [testFixLoopF]
    by_cases hp : lastTR.passed
    · rw [if_pos hp]
      exact ⟨rfl, rfl⟩
    · rw [if_neg hp]
      by_cases hc : cycle < cfg.maxTestFixCycles
      · rw [if_pos hc]
        by_cases hb : budgetExceeded cfg st
        · rw [if_pos hb]
          exact ⟨rfl, rfl⟩
        · rw [if_neg hb]
          cases hfx : env.testFix (cycle + 1) with
          | error e => exact ⟨rfl, rfl⟩
          | ok fr =>
            simp only
            exact ih (cycle + 1) _ _
      · rw [if_neg hc]
        exact ⟨rfl, rfl⟩

/-- The test-fix loop preserves the worktree and branch. -/
lemma testFixLoop_preserves (env : OrchEnv) (cfg : AgentConfig)
    (info : ProjectInfo) (b : TestBaseline) (st : OrchSt) (lastTR : TestResult)
    (cycle : ℕ) :
    (testFixLoop env cfg info b st lastTR cycle).1.worktreePath = st.worktreePath
      ∧ (testFixLoop env cfg info b st lastTR cycle).1.branchName = st.branchName :=
  testFixLoopF_preserves env cfg info b (cfg.maxTestFixCycles - cycle) cycle st lastTR

/-- orchCommitDone reports the ledger sum of its recorded phases. -/
lemma orchCommitDone_total (env : OrchEnv) (cfg : AgentConfig)
    (info : ProjectInfo) (st : OrchSt) (lastTR : Option TestResult) :
    (orchCommitDone env cfg info st lastTR).1.totalCostUsd
      = sumCost (orchCommitDone env cfg info st lastTR).1.phases := by
  unfold orchCommitDone
  cases hcp : commitPhase env.commitMain info cfg
      (match lastTR with | some t => !t.passed | none => false) with
  | mk cevs eres =>
    cases eres with
    | error e => exact fwc_total env cfg info _ _ _
    | ok x => rfl

/-- With a worktree present, orchCommitDone removes it on every branch. -/
lemma orchCommitDone_removes (env : OrchEnv) (cfg : AgentConfig)
    (info : ProjectInfo) (st : OrchSt) (lastTR : Option TestResult)
    (hwt : st.worktreePath ≠ "") :
    Ev.removeWorktree ∈ (orchCommitDone env cfg info st lastTR).2 := by
  unfold orchCommitDone
  generalize (match lastTR with | some t => !t.passed | none => false) = dr
  cases hcp : commitPhase env.commitMain info cfg dr with
  | mk cevs eres =>
    cases eres with
    | error e =>
      exact fwc_removes env cfg info _ _ _ (by simpa using hwt)
    | ok x =>
      have h2 : (commitPhase env.commitMain info cfg dr).2 = Except.ok x := by
        rw [hcp]
      have := commitPhase_ok_removes env.commitMain info cfg dr x h2
      rw [hcp] at this
      simp [List.mem_append, this]

/-- orchAfterPlanReview reports the ledger sum of its recorded phases. -/
lemma orchAfterPlanReview_total (env : OrchEnv) (cfg : AgentConfig)
    (info : ProjectInfo) (b : TestBaseline) (st : OrchSt) :
    (orchAfterPlanReview env cfg info b st).1.totalCostUsd
      = sumCost (orchAfterPlanReview env cfg info b st).1.phases := by
  unfold orchAfterPlanReview
  by_cases hb : budgetExceeded cfg st
  · rw [if_pos hb]
    exact fwc_total env cfg info _ _ _
  · rw [if_neg hb]
    cases hep : executePhase env with
    | error e => exact fwc_total env cfg info _ _ _
    | ok x =>
      cases x with
      | mk er d =>
        simp only
        by_cases hskip : cfg.skipTests
        · rw [if_pos hskip]
          exact orchCommitDone_total env cfg info _ _
        · rw [if_neg hskip]
          exact orchCommitDone_total env cfg info _ _

/-- With a worktree present, orchAfterPlanReview removes it. -/
lemma orchAfterPlanReview_removes (env : OrchEnv) (cfg : AgentConfig)
    (info : ProjectInfo) (b : TestBaseline) (st : OrchSt)
    (hwt : st.worktreePath ≠ "") :
    Ev.removeWorktree ∈ (orchAfterPlanReview env cfg info b st).2 := by
  unfold orchAfterPlanReview
  by_cases hb : budgetExceeded cfg st
  · rw [if_pos hb]
    exact fwc_removes env cfg info _ _ _ hwt
  · rw [if_neg hb]
    cases hep : executePhase env with
    | error e => exact fwc_removes env cfg info _ _ _ (by simpa using hwt)
    | ok x =>
      cases x with
      | mk er d =>
        simp only
        by_cases hskip : cfg.skipTests
        · rw [if_pos hskip]
          apply orchCommitDone_removes
          by_cases hcr : cfg.skipCodeReview
          · simp [hcr, hwt]
          · simp only [hcr, if_neg, Bool.false_eq_true, ite_false]
            rw [(codeReviewLoop_preserves env cfg _ 0).1]
            simpa using hwt
        · rw [if_neg hskip]
          apply orchCommitDone_removes
          rw [(testFixLoop_preserves env cfg info b _ _ 0).1]
          by_cases hcr : cfg.skipCodeReview
          · simp [hcr, hwt]
          · simp only [hcr, Bool.false_eq_true, ite_false]
            rw [(codeReviewLoop_preserves env cfg _ 0).1]
            simpa using hwt

/-- orchestrate reports the ledger sum of its recorded phases on every
return path. -/
lemma orchestrate_total (env : OrchEnv) (cfg : AgentConfig) :
    (orchestrate env cfg).1.totalCostUsd
      = sumCost (orchestrate env cfg).1.phases := by
  unfold orchestrate
  cases hi : env.intake with
  | error e => exact fwc_total env cfg _ _ _ _
  | ok x =>
    obtain ⟨ir, info⟩ := x
    simp only
    cases hs : env.setup with
    | error e => exact fwc_total env cfg info _ _ _
    | ok y =>
      obtain ⟨sr, wt, bn⟩ := y
      simp only
      cases hpf : env.planFirst with
      | error e =>
        cases hpr : env.planRetry with
        | error e2 => exact fwc_total env cfg info _ _ _
        | ok p =>
          simp only
          by_cases hsp : cfg.skipPlanReview
          · simp only [hsp, if_true]
            exact orchAfterPlanReview_total env cfg info _ _
          · simp only [hsp, Bool.false_eq_true, if_false]
            cases hloop : planReviewLoop env cfg info
                { phases := ([] : List PhaseResult) ++ [ir] ++ [sr] ++ [p.result],
                  worktreePath := wt, branchName := bn,
                  planContent := p.planContent, planSessionId := p.sessionId,
                  evs := [Ev.phaseStart PhaseName.intake]
                    ++ [Ev.phaseStart PhaseName.setup]
                    ++ [Ev.phaseStart PhaseName.plan] } 0 with
            | inl r =>
              obtain ⟨st2, s, h1, _, _⟩ :=
                planReviewLoop_inl env cfg info _ 0 r hloop
              rw [h1]
              exact fwc_total env cfg info _ _ _
            | inr st5 => exact orchAfterPlanReview_total env cfg info _ _
      | ok p =>
        simp only
        by_cases hsp : cfg.skipPlanReview
        · simp only [hsp, if_true]
          exact orchAfterPlanReview_total env cfg info _ _
        · simp only [hsp, Bool.false_eq_true, if_false]
          cases hloop : planReviewLoop env cfg info
              { phases := ([] : List PhaseResult) ++ [ir] ++ [sr] ++ [p.result],
                worktreePath := wt, branchName := bn,
                planContent := p.planContent, planSessionId := p.sessionId,
                evs := [Ev.phaseStart PhaseName.intake]
                  ++ [Ev.phaseStart PhaseName.setup]
                  ++ [Ev.phaseStart PhaseName.plan] } 0 with
          | inl r =>
            obtain ⟨st2, s, h1, _, _⟩ :=
              planReviewLoop_inl env cfg info _ 0 r hloop
            rw [h1]
            exact fwc_total env cfg info _ _ _
          | inr st5 => exact orchAfterPlanReview_total env cfg info _ _

/- ────────────────────────────── Claim C9 ──────────────────────────────── -/

/-- C9: in every run in which setup created a worktree, the worktree is
removed before the final result is returned, on every terminal path of the
orchestrator — success, partial and failed, including salvage, budget aborts
and fatal errors in any later phase. -/
theorem C9_worktree_always_removed (env : OrchEnv) (cfg : AgentConfig)
    (ir : PhaseResult) (info : ProjectInfo) (sr : PhaseResult) (wt bn : String)
    (hintake : env.intake = Except.ok (ir, info))
    (hsetup : env.setup = Except.ok (sr, wt, bn))
    (hwt : wt ≠ "") :
    Ev.removeWorktree ∈ (orchestrate env cfg).2 := by
  unfold orchestrate
  rw [hintake, hsetup]
  simp only
  cases hpf : env.planFirst with
  | error e =>
    cases hpr : env.planRetry with
    | error e2 => exact fwc_removes env cfg info _ _ _ hwt
    | ok p =>
      simp only
      by_cases hsp : cfg.skipPlanReview
      · simp only [hsp, if_true]
        exact orchAfterPlanReview_removes env cfg info _ _ hwt
      · simp only [hsp, Bool.false_eq_true, if_false]
        cases hloop : planReviewLoop env cfg info
            { phases := ([] : List PhaseResult) ++ [ir] ++ [sr] ++ [p.result],
              worktreePath := wt, branchName := bn,
              planContent := p.planContent, planSessionId := p.sessionId,
              evs := [Ev.phaseStart PhaseName.intake]
                ++ [Ev.phaseStart PhaseName.setup]
                ++ [Ev.phaseStart PhaseName.plan] } 0 with
        | inl r =>
          obtain ⟨st2, s, h1, h2, _⟩ :=
            planReviewLoop_inl env cfg info _ 0 r hloop
          rw [h1]
          exact fwc_removes env cfg info _ _ _ (by rw [h2]; exact hwt)
        | inr st5 =>
          have h5 := planReviewLoop_inr env cfg info _ 0 st5 hloop
          exact orchAfterPlanReview_removes env cfg info _ _
            (by rw [h5.1]; exact hwt)
  | ok p =>
    simp only
    by_cases hsp : cfg.skipPlanReview
    · simp only [hsp, if_true]
      exact orchAfterPlanReview_removes env cfg info _ _ hwt
    · simp only [hsp, Bool.false_eq_true, if_false]
      cases hloop : planReviewLoop env cfg info
          { phases := ([] : List PhaseResult) ++ [ir] ++ [sr] ++ [p.result],
            worktreePath := wt, branchName := bn,
            planContent := p.planContent, planSessionId := p.sessionId,
            evs := [Ev.phaseStart PhaseName.intake]
              ++ [Ev.phaseStart PhaseName.setup]
              ++ [Ev.phaseStart PhaseName.plan] } 0 with
      | inl r =>
        obtain ⟨st2, s, h1, h2, _⟩ :=
          planReviewLoop_inl env cfg info _ 0 r hloop
        rw [h1]
        exact fwc_removes env cfg info _ _ _ (by rw [h2]; exact hwt)
      | inr st5 =>
        have h5 := planReviewLoop_inr env cfg info _ 0 st5 hloop
        exact orchAfterPlanReview_removes env cfg info _ _
          (by rw [h5.1]; exact hwt)

/- ──────────────── Concrete environments for witnesses ─────────────────── -/

/-- Convenience phase entry for concrete environments. -/
def phaseEntry (p : PhaseName) (c : ℤ) : PhaseResult :=
  { phase := p, success := true, costUsd := c }

/-- Project info used by the concrete environments. -/
def pushableInfo : ProjectInfo :=
  { hasGitRemote := true, canPush := true }

/-- Plan output used by the concrete environments. -/
def planOut1 : PlanOut :=
  { result := phaseEntry PhaseName.plan 1, planContent := "the plan",
    sessionId := "s1" }

/-- Concrete run environment: every collaborator succeeds, the plan review
approves, code review passes, no checks are configured, and the PR is
created. -/
def happyEnv : OrchEnv :=
  { intake := Except.ok (phaseEntry PhaseName.intake 0, pushableInfo),
    setup := Except.ok (phaseEntry PhaseName.setup 0, "wt", "feat-x"),
    baselineExec := fun _ => none,
    planFirst := Except.ok planOut1,
    planRetry := Except.error "retry not invoked",
    planRevise := fun _ => Except.error "never invoked",
    planReview := fun _ =>
      Except.ok (phaseEntry PhaseName.planReview 1, { verdict := "approve", summary := "fine" }),
    executeAgent := Except.ok (phaseEntry PhaseName.execute 1, "some diff"),
    codeReview := fun _ =>
      Except.ok (phaseEntry PhaseName.codeReview 1, { verdict := "pass", summary := "clean" }),
    fixFromReview := fun _ => Except.error "never invoked",
    testExec := fun _ _ => none,
    testFix := fun _ => Except.error "never invoked",
    commitMain := { createPr := Except.ok (some "https://pr/1") },
    commitSalvage := { createPr := Except.ok (some "https://pr/1") } }

/-- Concrete configuration with a generous budget. -/
def happyCfg : AgentConfig :=
  { maxPlanReviewCycles := 2, maxCodeReviewCycles := 2, maxTestFixCycles := 2,
    maxTotalBudgetUsd := 100 }

example : (orchestrate happyEnv happyCfg).1.status = "success" := by decide

example : (orchestrate happyEnv happyCfg).1.totalCostUsd = 4 := by decide

/-- Witness for C9 at a concrete input. -/
theorem C9_worktree_always_removed_witness :
    Ev.removeWorktree ∈ (orchestrate happyEnv happyCfg).2 :=
  C9_worktree_always_removed happyEnv happyCfg (phaseEntry PhaseName.intake 0)
    pushableInfo (phaseEntry PhaseName.setup 0)
    "wt" "feat-x" rfl rfl (by decide)

/-- failWithCleanup invoked with isDraft = false never salvages: the status
is 'failed'. -/
lemma fwc_false_draft (env : OrchEnv) (cfg : AgentConfig) (info : ProjectInfo)
    (st : OrchSt) (summary : String) :
    (failWithCleanup env cfg info st summary false).1.status = "failed" := by
  unfold failWithCleanup
  split
  · rename_i h
    simp at h
  · split
    · rfl
    · rfl

/- ────────────────────────────── Claim C6 ──────────────────────────────── -/

/-- C6: in the plan-review loop, a reject verdict immediately terminates the
whole run as failed, with no retry or revision; a revise (or any
non-approve, non-reject) verdict on the last cycle instead logs a warning
and proceeds with the current plan; and reject is the only verdict that
terminates the loop — every terminating outcome is either the budget gate or
a reject verdict. -/
theorem C6_reject_terminates (env : OrchEnv) (cfg : AgentConfig)
    (info : ProjectInfo) (st : OrchSt) (cycle : ℕ) (pr : PhaseResult)
    (v : PlanReviewVerdict) :
    (cycle < cfg.maxPlanReviewCycles →
      env.planReview (cycle + 1) = Except.ok (pr, v) →
      budgetExceeded cfg { st with phases := st.phases ++ [pr] } = false →
      v.verdict = "reject" →
      planReviewLoop env cfg info st cycle
        = Sum.inl (failWithCleanup env cfg info
            { st with phases := st.phases ++ [pr] }
            ("Plan rejected: " ++ v.summary) false)
      ∧ (failWithCleanup env cfg info { st with phases := st.phases ++ [pr] }
          ("Plan rejected: " ++ v.summary) false).1.status = "failed")
    ∧ (cycle + 1 = cfg.maxPlanReviewCycles →
      env.planReview (cycle + 1) = Except.ok (pr, v) →
      budgetExceeded cfg { st with phases := st.phases ++ [pr] } = false →
      v.verdict ≠ "approve" → v.verdict ≠ "reject" →
      planReviewLoop env cfg info st cycle
        = Sum.inr { st with
            phases := st.phases ++ [pr],
            evs := st.evs
              ++ [Ev.warn "Max plan review cycles reached, proceeding with current plan"] })
    ∧ (∀ r, planReviewLoop env cfg info st cycle = Sum.inl r →
        r.1.summary = "Budget exceeded during plan review"
        ∨ ∃ c pr2 v2, env.planReview c = Except.ok (pr2, v2)
            ∧ v2.verdict = "reject"
            ∧ r.1.summary = "Plan rejected: " ++ v2.summary) := by
  refine ⟨?_, ?_, ?_⟩
  · intro hc hrev hb hrej
    obtain ⟨n, hn⟩ : ∃ n, cfg.maxPlanReviewCycles - cycle = n + 1 :=
      ⟨cfg.maxPlanReviewCycles - cycle - 1, by omega⟩
    unfold planReviewLoop
    rw [hn]
    simp only [planReviewLoopF]
    rw [if_pos hc, hrev]
    simp only
    rw [if_neg (by rw [hb]; simp), if_neg (by simp [hrej]), if_pos (by simp [hrej])]
    exact ⟨rfl, fwc_false_draft env cfg info _ _⟩
  · intro hc hrev hb ha hr
    obtain ⟨n, hn⟩ : ∃ n, cfg.maxPlanReviewCycles - cycle = n + 1 :=
      ⟨cfg.maxPlanReviewCycles - cycle - 1, by omega⟩
    unfold planReviewLoop
    rw [hn]
    simp only [planReviewLoopF]
    rw [if_pos (by omega), hrev]
    simp only
    rw [if_neg (by rw [hb]; simp), if_neg (by simp [ha]), if_neg (by simp [hr]),
      if_neg (by omega)]
  · intro r h
    obtain ⟨st2, s, h1, _, h3⟩ := planReviewLoop_inl env cfg info st cycle r h
    rw [h1, fwc_summary]
    exact h3

/-- Concrete plan-review environment whose reviewer rejects. -/
def vC6 : PlanReviewVerdict :=
  { verdict := "reject", summary := "task is unclear" }

/-- Environment for the C6 witness. -/
def envC6 : OrchEnv :=
  { happyEnv with
    planReview := fun _ => Except.ok (phaseEntry PhaseName.planReview 1, vC6) }

/-- Entry state for the C6 witness. -/
def stC6 : OrchSt :=
  { phases := [phaseEntry PhaseName.plan 1], worktreePath := "wt",
    branchName := "feat-x" }

/-- Witness for C6 at a concrete input: a rejecting reviewer terminates the
loop with a failed cleanup. -/
theorem C6_reject_terminates_witness :
    planReviewLoop envC6 happyCfg pushableInfo stC6 0
      = Sum.inl (failWithCleanup envC6 happyCfg pushableInfo
          { stC6 with phases := stC6.phases ++ [phaseEntry PhaseName.planReview 1] }
          ("Plan rejected: " ++ vC6.summary) false)
    ∧ (failWithCleanup envC6 happyCfg pushableInfo
        { stC6 with phases := stC6.phases ++ [phaseEntry PhaseName.planReview 1] }
        ("Plan rejected: " ++ vC6.summary) false).1.status = "failed" :=
  (C6_reject_terminates envC6 happyCfg pushableInfo stC6 0
    (phaseEntry PhaseName.planReview 1) vC6).1
    (by decide) rfl (by decide) rfl

/- ────────────────────────────── Claim C2 ──────────────────────────────── -/

/-- Environment for the C2 counterexample: execution costs push the total
past the budget. -/
def envC2 : OrchEnv :=
  { happyEnv with
    executeAgent := Except.ok (phaseEntry PhaseName.execute 2, "some diff") }

/-- Configuration for the C2 counterexample: small budget, plan review and
tests skipped. -/
def cfgC2 : AgentConfig :=
  { maxPlanReviewCycles := 2, maxCodeReviewCycles := 2, maxTestFixCycles := 2,
    maxTotalBudgetUsd := 2, skipPlanReview := true, skipTests := true }

/-- Counterexample to C2: when the cost after execute already exceeds the
budget, the run does not terminate into the salvage path — the code-review
loop is skipped with a warning and the run continues into commit, finishing
with status success and a total above the budget. -/
theorem C2_budget_counterexample :
    (orchestrate envC2 cfgC2).1.status = "success"
    ∧ cfgC2.maxTotalBudgetUsd ≤ (orchestrate envC2 cfgC2).1.totalCostUsd
    ∧ Ev.warn "Budget exceeded, skipping code review" ∈ (orchestrate envC2 cfgC2).2
    ∧ ((orchestrate envC2 cfgC2).1.phases.any fun p => p.phase == PhaseName.commit)
        = true := by
  refine ⟨by decide, by decide, by decide, by decide⟩

/-- C2 as amended: the budget checkpoints after a plan-review cycle and
before execute terminate the run into the salvage path as failed, but the
checkpoints at the top of a code-review or test-fix cycle merely log a
warning, skip the remaining cycles of that loop, and let the run continue
toward commit. -/
theorem C2_budget_checkpoints (env : OrchEnv) (cfg : AgentConfig)
    (info : ProjectInfo) (b : TestBaseline) (st : OrchSt) (cycle : ℕ)
    (pr : PhaseResult) (v : PlanReviewVerdict) (lastTR : TestResult) :
    (budgetExceeded cfg st = true →
      orchAfterPlanReview env cfg info b st
        = failWithCleanup env cfg info st "Budget exceeded before execution" false
      ∧ (failWithCleanup env cfg info st
          "Budget exceeded before execution" false).1.status = "failed")
    ∧ (cycle < cfg.maxPlanReviewCycles →
      env.planReview (cycle + 1) = Except.ok (pr, v) →
      budgetExceeded cfg { st with phases := st.phases ++ [pr] } = true →
      planReviewLoop env cfg info st cycle
        = Sum.inl (failWithCleanup env cfg info
            { st with phases := st.phases ++ [pr] }
            "Budget exceeded during plan review" false))
    ∧ (cycle < cfg.maxCodeReviewCycles →
      budgetExceeded cfg st = true →
      codeReviewLoop env cfg st cycle
        = { st with evs := st.evs
            ++ [Ev.warn "Budget exceeded, skipping code review"] })
    ∧ (lastTR.passed = false → cycle < cfg.maxTestFixCycles →
      budgetExceeded cfg st = true →
      testFixLoop env cfg info b st lastTR cycle
        = ({ st with evs := st.evs
            ++ [Ev.warn "Budget exceeded, stopping test-fix cycles"] }, lastTR)) := by
  refine ⟨?_, ?_, ?_, ?_⟩
  · intro hb
    constructor
    · unfold orchAfterPlanReview
      rw [if_pos hb]
    · exact fwc_false_draft env cfg info _ _
  · intro hc hrev hb
    obtain ⟨n, hn⟩ : ∃ n, cfg.maxPlanReviewCycles - cycle = n + 1 :=
      ⟨cfg.maxPlanReviewCycles - cycle - 1, by omega⟩
    unfold planReviewLoop
    rw [hn]
    simp only [planReviewLoopF]
    rw [if_pos hc, hrev]
    simp only
    rw [if_pos hb]
  · intro hc hb
    obtain ⟨n, hn⟩ : ∃ n, cfg.maxCodeReviewCycles - cycle = n + 1 :=
      ⟨cfg.maxCodeReviewCycles - cycle - 1, by omega⟩
    unfold codeReviewLoop
    rw [hn]
    simp only [codeReviewLoopF]
    rw [if_pos hc, if_pos hb]
  · intro hp hc hb
    obtain ⟨n, hn⟩ : ∃ n, cfg.maxTestFixCycles - cycle = n + 1 :=
      ⟨cfg.maxTestFixCycles - cycle - 1, by omega⟩
    unfold testFixLoop
    rw [hn]
    simp only [testFixLoopF]
    rw [if_neg (by rw [hp]; simp), if_pos hc, if_pos hb]

/-- Entry state for the C2 witness: the recorded cost already exceeds the
small budget. -/
def stC2 : OrchSt :=
  { phases := [phaseEntry PhaseName.execute 3], worktreePath := "wt",
    branchName := "feat-x" }

/-- Witness for the amended C2 at a concrete input: a budget excess at the
top of a code-review cycle only warns and exits the loop. -/
theorem C2_budget_checkpoints_witness :
    codeReviewLoop envC2 cfgC2 stC2 0
      = { stC2 with evs := stC2.evs
          ++ [Ev.warn "Budget exceeded, skipping code review"] } :=
  (C2_budget_checkpoints envC2 cfgC2 pushableInfo
      { runLint := false, runTypecheck := false, runUnit := false } stC2 0
      (phaseEntry PhaseName.planReview 1) vC6
      { passed := true, exitCode := 0, output := "" }).2.2.1
    (by decide) (by decide)

/-- failWithCleanup with a worktree and no draftable diff: explicit result. -/
lemma fwc_no_draft_result (env : OrchEnv) (cfg : AgentConfig)
    (info : ProjectInfo) (st : OrchSt) (summary : String)
    (hwt : st.worktreePath ≠ "") :
    failWithCleanup env cfg info st summary false
      = ({ status := "failed", prUrl := none, branchName := st.branchName,
           phases := st.phases, totalCostUsd := sumCost st.phases,
           summary := summary },
         st.evs ++ [Ev.removeWorktree]) := by
  unfold failWithCleanup
  split
  · rename_i h
    simp at h
  · split
    · rfl
    · rename_i h2
      exact absurd (by simpa using hwt) h2

/- ────────────────────────────── Claim C7 ──────────────────────────────── -/

/-- C7: a run whose execute (v1) or implement (v2) phase ends with an empty
diff terminates with status failed, never enters the commit phase, and
removes the worktree. -/
theorem C7_empty_diff_fails (env : OrchEnv) (cfg : AgentConfig)
    (info : ProjectInfo) (b : TestBaseline) (st : OrchSt) (er : PhaseResult)
    (cenv : CtrlEnv) (ccfg : AgentConfig2) (ssr psr isr : StageResult)
    (pinfo : ProjectInfo2) (wt2 bn2 : String) (c1 c2 c3 : ℤ)
    (hexec : env.executeAgent = Except.ok (er, ""))
    (hwt : st.worktreePath ≠ "") (hdiff : st.diff = "")
    (hbud : budgetExceeded cfg st = false)
    (hph : ∀ p ∈ st.phases, p.phase ≠ PhaseName.commit)
    (hev : Ev.gitCommit ∉ st.evs)
    (hsetup2 : cenv.setup = StageOutcome.ok c1 (ssr, pinfo, wt2, bn2))
    (hb1 : checkBudget2 ccfg c1 = Except.ok ())
    (hplan2 : cenv.plan = StageOutcome.ok c2 psr)
    (hb2 : checkBudget2 ccfg (c1 + c2) = Except.ok ())
    (himpl : cenv.implementAgent = StageOutcome.ok c3 isr)
    (hdiff2 : jsTrim cenv.implementDiff = "")
    (hdaf : cenv.diffAtFailure = Except.ok cenv.implementDiff)
    (hwt2 : wt2 ≠ "") :
    ((orchAfterPlanReview env cfg info b st).1.status = "failed"
      ∧ (∀ p ∈ (orchAfterPlanReview env cfg info b st).1.phases,
          p.phase ≠ PhaseName.commit)
      ∧ Ev.gitCommit ∉ (orchAfterPlanReview env cfg info b st).2
      ∧ Ev.removeWorktree ∈ (orchAfterPlanReview env cfg info b st).2)
    ∧ ((runController2 cenv ccfg).1.status = "failed"
      ∧ (runController2 cenv ccfg).1.stages = [ssr, psr]
      ∧ Ev.removeWorktree ∈ (runController2 cenv ccfg).2.2) := by
  constructor
  · have hep : executePhase env = Except.error "Execution produced no code changes" := by
      unfold executePhase
      rw [hexec]
      simp
    have hres : orchAfterPlanReview env cfg info b st
        = failWithCleanup env cfg info
            { st with evs := st.evs ++ [Ev.phaseStart PhaseName.execute] }
            ("Failed in execute: " ++ "Execution produced no code changes")
            (st.diff != "") := by
      unfold orchAfterPlanReview
      rw [if_neg (by rw [hbud]; simp), hep]
    rw [hres, show (st.diff != "") = false from by simp [hdiff],
      fwc_no_draft_result env cfg info _ _ (by simpa using hwt)]
    refine ⟨rfl, hph, ?_, by simp⟩
    intro hcontra
    simp only [List.append_assoc, List.mem_append] at hcontra
    rcases hcontra with h1 | h1
    · exact hev h1
    · simp at h1
  · have himp2 : runImplement2 cenv
        = StageOutcome.err c3 "Coder produced no changes (empty diff)" := by
      unfold runImplement2
      rw [himpl]
      simp only
      rw [if_pos (by simp [hdiff2])]
    have hcc : ∀ acc stages msg, ctrlCatch cenv ccfg acc stages wt2 bn2 msg
        = ({ status := "failed",
             branchName := if bn2 == "" then none else some bn2,
             stages := stages, totalCostUsd := acc,
             summary := "Failed: " ++ msg },
           [Ev.removeWorktree]) := by
      intro acc stages msg
      unfold ctrlCatch
      by_cases hg : ccfg.draftPrOnFailure && wt2 != "" && bn2 != ""
      · simp only [hg, if_true, hdaf]
        rw [if_neg (by simp [hdiff2])]
        simp [hwt2]
      · simp only [hg, Bool.false_eq_true, if_false]
        simp [hwt2]
    unfold runController2
    rw [hsetup2]
    simp only
    rw [hb1]
    simp only
    rw [hplan2]
    simp only
    rw [hb2]
    simp only
    rw [himp2]
    simp only
    rw [hcc]
    exact ⟨rfl, rfl, by simp⟩

/-- Environment for the C7 witness (v1): the coder produces an empty diff. -/
def envC7 : OrchEnv :=
  { happyEnv with
    executeAgent := Except.ok (phaseEntry PhaseName.execute 1, "") }

/-- Entry state for the C7 witness. -/
def stC7 : OrchSt :=
  { phases := [phaseEntry PhaseName.plan 1], worktreePath := "wt",
    branchName := "feat-x" }

/-- Environment for the C7 witness (v2): the coder produces an empty diff. -/
def cenvC7 : CtrlEnv :=
  { setup := StageOutcome.ok 0
      ({ stage := "setup", success := true, costUsd := 0 },
       { hasRemote := true, canPush := true }, "wt", "feat-x"),
    plan := StageOutcome.ok 1 { stage := "plan", success := true, costUsd := 1 },
    implementAgent := StageOutcome.ok 2
      { stage := "implement", success := true, costUsd := 2 },
    implementDiff := "  ",
    commit := StageOutcome.err 0 "unreached",
    diffAtFailure := Except.ok "  " }

/-- Configuration for the C7 witness (v2). -/
def ccfgC7 : AgentConfig2 :=
  { maxTotalBudgetUsd := 20 }

/-- Witness for C7 at concrete inputs. -/
theorem C7_empty_diff_fails_witness :
    ((orchAfterPlanReview envC7 happyCfg pushableInfo
        { runLint := false, runTypecheck := false, runUnit := false } stC7).1.status
        = "failed"
      ∧ (∀ p ∈ (orchAfterPlanReview envC7 happyCfg pushableInfo
          { runLint := false, runTypecheck := false, runUnit := false } stC7).1.phases,
          p.phase ≠ PhaseName.commit)
      ∧ Ev.gitCommit ∉ (orchAfterPlanReview envC7 happyCfg pushableInfo
          { runLint := false, runTypecheck := false, runUnit := false } stC7).2
      ∧ Ev.removeWorktree ∈ (orchAfterPlanReview envC7 happyCfg pushableInfo
          { runLint := false, runTypecheck := false, runUnit := false } stC7).2)
    ∧ ((runController2 cenvC7 ccfgC7).1.status = "failed"
      ∧ (runController2 cenvC7 ccfgC7).1.stages
          = [{ stage := "setup", success := true, costUsd := 0 },
             { stage := "plan", success := true, costUsd := 1 }]
      ∧ Ev.removeWorktree ∈ (runController2 cenvC7 ccfgC7).2.2) :=
  C7_empty_diff_fails envC7 happyCfg pushableInfo
    { runLint := false, runTypecheck := false, runUnit := false } stC7
    (phaseEntry PhaseName.execute 1) cenvC7 ccfgC7
    { stage := "setup", success := true, costUsd := 0 }
    { stage := "plan", success := true, costUsd := 1 }
    { stage := "implement", success := true, costUsd := 2 }
    { hasRemote := true, canPush := true } "wt" "feat-x" 0 1 2
    rfl (by decide) rfl (by decide) (by decide) (by decide)
    rfl rfl rfl rfl rfl (by decide) rfl (by decide)

/- ────────────────────────────── Claim C1 ──────────────────────────────── -/

/-- Environment for the C1 counterexample: the main commit throws, the
salvage commit succeeds but its PR creation fails. -/
def envC1 : OrchEnv :=
  { happyEnv with
    commitMain := { commitThrows := true },
    commitSalvage := { createPr := Except.error () } }

/-- Counterexample to C1: a fatal run with a worktree, a non-empty diff and
drafting enabled, in which the salvage commit is recorded (a commit phase
entry exists), yet because the PR creation failed the run ends with status
failed rather than partial. -/
theorem C1_salvage_counterexample :
    (orchestrate envC1 happyCfg).1.status = "failed"
    ∧ happyCfg.draftPrOnFailure = true
    ∧ ((orchestrate envC1 happyCfg).1.phases.any fun p => p.phase == PhaseName.commit)
        = true
    ∧ Ev.gitCommit ∈ (orchestrate envC1 happyCfg).2
    ∧ (orchestrate envC1 happyCfg).1.prUrl = none := by
  refine ⟨by decide, by decide, by decide, by decide, by decide⟩

/-- C1 as amended: on the fatal path with a worktree, drafting enabled and a
non-empty diff, the salvage commit is attempted (staging is visible in the
trace) and the worktree is removed, but the final status is 'partial'
precisely when the salvage produced a PR url — a salvage whose push or PR
creation yields no url ends 'failed' even though the commit was made. -/
theorem C1_amended_salvage_status (env : OrchEnv) (cfg : AgentConfig)
    (info : ProjectInfo) (st : OrchSt) (summary : String)
    (hwt : st.worktreePath ≠ "") (hdraft : cfg.draftPrOnFailure = true)
    (hdiff : st.diff ≠ "") :
    Ev.stageAll ∈ (failWithCleanup env cfg info st summary true).2
    ∧ ((failWithCleanup env cfg info st summary true).1.status = "partial"
        ↔ (failWithCleanup env cfg info st summary true).1.prUrl.isSome = true)
    ∧ Ev.removeWorktree ∈ (failWithCleanup env cfg info st summary true).2 := by
  have hguard : (st.worktreePath != "" && true && cfg.draftPrOnFailure
      && st.diff != "") = true := by
    simp [hwt, hdraft, hdiff]
  unfold failWithCleanup
  rw [if_pos hguard]
  have hsa := commitPhase_stageAll env.commitSalvage info cfg true
  cases hcp : commitPhase env.commitSalvage info cfg true with
  | mk cevs eres =>
    rw [hcp] at hsa
    cases eres with
    | ok x =>
      obtain ⟨res, url⟩ := x
      have h2 : (commitPhase env.commitSalvage info cfg true).2
          = Except.ok (res, url) := by rw [hcp]
      have hrm := commitPhase_ok_removes env.commitSalvage info cfg true
        (res, url) h2
      rw [hcp] at hrm
      refine ⟨by simp [hsa], ?_, by simp [hrm]⟩
      cases url with
      | some u => simp
      | none =>
        simp only [Option.isSome_none]
        constructor
        · intro hcontra
          exact absurd hcontra (by decide)
        · intro hcontra
          cases hcontra
    | error e =>
      refine ⟨by simp [hsa], ?_, by simp⟩
      simp only [Option.isSome_none]
      constructor
      · intro hcontra
        exact absurd hcontra (by decide)
      · intro hcontra
        cases hcontra

/-- Entry state for the C1 witness. -/
def stC1 : OrchSt :=
  { phases := [phaseEntry PhaseName.execute 1], worktreePath := "wt",
    branchName := "feat-x", diff := "some diff" }

/-- Witness for the amended C1 at a concrete input. -/
theorem C1_amended_salvage_status_witness :
    Ev.stageAll ∈ (failWithCleanup envC1 happyCfg pushableInfo stC1 "m" true).2
    ∧ ((failWithCleanup envC1 happyCfg pushableInfo stC1 "m" true).1.status
          = "partial"
        ↔ (failWithCleanup envC1 happyCfg pushableInfo stC1 "m" true).1.prUrl.isSome
          = true)
    ∧ Ev.removeWorktree
        ∈ (failWithCleanup envC1 happyCfg pushableInfo stC1 "m" true).2 :=
  C1_amended_salvage_status envC1 happyCfg pushableInfo stC1 "m"
    (by decide) (by decide) (by decide)

/- ────────────────────────────── Claim C3 ──────────────────────────────── -/

/-- Environment for the C3 counterexample: the plan stage throws after
incurring cost that the global accumulator records but no stage entry
does. -/
def envC3 : CtrlEnv :=
  { setup := StageOutcome.ok 0
      ({ stage := "setup", success := true, costUsd := 0 },
       { hasRemote := true, canPush := true }, "wt", "feat-x"),
    plan := StageOutcome.err 1 "Planner did not create the plan file",
    implementAgent := StageOutcome.err 0 "unreached",
    implementDiff := "",
    commit := StageOutcome.err 0 "unreached",
    diffAtFailure := Except.ok "" }

/-- Configuration for the C3 counterexample. -/
def cfgC3 : AgentConfig2 :=
  { maxTotalBudgetUsd := 20 }

/-- Counterexample to C3: in the stage-based controller, a run whose plan
stage throws after incurring cost reports a totalCostUsd (the global SDK
accumulator) different from the sum of costUsd over the recorded stage
entries. -/
theorem C3_cost_counterexample :
    (runController2 envC3 cfgC3).1.totalCostUsd
      ≠ sumStageCost (runController2 envC3 cfgC3).1.stages
    ∧ (runController2 envC3 cfgC3).1.totalCostUsd = 1
    ∧ sumStageCost (runController2 envC3 cfgC3).1.stages = 0 := by
  refine ⟨by decide, by decide, by decide⟩

/-- C3 as amended: the phase-based orchestrator reports totalCostUsd equal
to the sum of costUsd over its recorded phase entries (salvage entries
included), while the stage-based controller reports the separately
accumulated global counter on every path. -/
theorem C3_amended_cost_ledger (env : OrchEnv) (cfg : AgentConfig)
    (cenv : CtrlEnv) (ccfg : AgentConfig2) :
    (orchestrate env cfg).1.totalCostUsd
        = sumCost (orchestrate env cfg).1.phases
    ∧ (runController2 cenv ccfg).1.totalCostUsd
        = (runController2 cenv ccfg).2.1 := by
  refine ⟨orchestrate_total env cfg, ?_⟩
  have hct : ∀ acc stages wt bn msg,
      (ctrlCatch cenv ccfg acc stages wt bn msg).1.totalCostUsd = acc := by
    intro acc stages wt bn msg
    unfold ctrlCatch
    repeat' split
    all_goals rfl
  unfold runController2
  cases hs : cenv.setup with
  | err c m => exact hct c [] "" "" m
  | ok c val =>
    obtain ⟨ssr, pinfo, wt, bn⟩ := val
    simp only
    cases hb : checkBudget2 ccfg c with
    | error m => exact hct c [ssr] wt bn m
    | ok u =>
      cases hp : cenv.plan with
      | err c2 m => exact hct (c + c2) [ssr] wt bn m
      | ok c2 psr =>
        simp only
        cases hb2 : checkBudget2 ccfg (c + c2) with
        | error m => exact hct (c + c2) ([ssr] ++ [psr]) wt bn m
        | ok u2 =>
          cases hi : runImplement2 cenv with
          | err c3 m => exact hct (c + c2 + c3) ([ssr] ++ [psr]) wt bn m
          | ok c3 isr =>
            simp only
            cases hb3 : checkBudget2 ccfg (c + c2 + c3) with
            | error m => exact hct (c + c2 + c3) ([ssr] ++ [psr] ++ [isr]) wt bn m
            | ok u3 =>
              cases hcm : cenv.commit with
              | err c4 m =>
                exact hct (c + c2 + c3 + c4) ([ssr] ++ [psr] ++ [isr]) wt bn m
              | ok c4 z =>
                obtain ⟨csr, url⟩ := z
                rfl

/- ─────────────────────── Remaining concrete witnesses ─────────────────── -/

/-- Check runner for the C5/C8 witnesses: the unit-test command fails after
the change, everything else passes. -/
def exec0 : CheckExec :=
  fun c => if c = "npm run test" then some (1, "1 test failed") else none

/-- Project info for the C5/C8 witnesses: lint and unit-test commands are
configured. -/
def info0 : ProjectInfo :=
  { testCommand := some "npm run test", lintCommand := some "npm run lint" }

/-- Baseline for the C5 witness: lint failed at baseline, unit tests passed
(the spec scenario). -/
def b0 : TestBaseline :=
  { runLint := false, runTypecheck := false, runUnit := true }

/-- Witness for C5 at a concrete input: with lint excluded by the baseline,
a failing enforced run is never classified as a lint failure, and lint is
never executed. -/
theorem C5_baseline_gated_enforcement_witness :
    (∀ p ∈ (runTestsTrace exec0 info0 b0).2, p.1 ≠ FailCat.lint)
    ∧ (runTestsTrace exec0 info0 b0).1.failureCategory ≠ some FailCat.lint :=
  (C5_baseline_gated_enforcement exec0 info0 b0).2.2.2.2.2 rfl

/-- Witness for C8 at a concrete input. -/
theorem C8_all_false_baseline_noop_witness :
    (testPhase exec0 info0 ⟨false, false, false⟩).1.2.passed = true
    ∧ (testPhase exec0 info0 ⟨false, false, false⟩).2 = [] :=
  ⟨(C8_all_false_baseline_noop exec0 info0).1,
   (C8_all_false_baseline_noop exec0 info0).2.2.2⟩

/-- Witness for the amended C3 at concrete inputs. -/
theorem C3_amended_cost_ledger_witness :
    (orchestrate happyEnv happyCfg).1.totalCostUsd
        = sumCost (orchestrate happyEnv happyCfg).1.phases
    ∧ (runController2 envC3 cfgC3).1.totalCostUsd
        = (runController2 envC3 cfgC3).2.1 :=
  C3_amended_cost_ledger happyEnv happyCfg envC3 cfgC3

end CodingAgent
